import Mathlib

/-!
# Layer provenance metadata (lpm): the correlator and the reference descriptors

A shallow embedding of `cmd/cli/analyze.go`, `cmd/cli/constants.go` and of the
annotation processing of `cmd/cli/config-annotate.go`.

Go maps are reference objects: the embedding keeps them in an explicit heap
(`Heap`), and a descriptor holds the address of its annotation map, so that
aliasing between a subject descriptor and a reference descriptor is visible.
A Go run-time panic (index out of range, assignment to an entry of a nil map)
is the result `none`.
-/

set_option autoImplicit false

namespace Lpm

/-! ## Annotation maps and the heap of map objects -/

/-- A `map[string]string` value: an association list, one pair per key. -/
abbrev AnnMap := List (String × String)

/-- The map read `m[k]` (with the presence flag). -/
def AnnMap.get? (m : AnnMap) (k : String) : Option String :=
  match m with
  | [] => none
  | (k', v') :: rest => if k' = k then some v' else AnnMap.get? rest k

/-- The map assignment `m[k] = v`: replaces the entry of `k`, or adds one. -/
def AnnMap.set (m : AnnMap) (k v : String) : AnnMap :=
  match m with
  | [] => [(k, v)]
  | (k', v') :: rest => if k' = k then (k, v) :: rest else (k', v') :: AnnMap.set rest k v

/-- The heap of map objects; the address of a map is its position. -/
abbrev Heap := List AnnMap

/-- A map-typed variable or field: `none` is the nil map, `some a` the map at address `a`. -/
abbrev MapRef := Option Nat

/-- The expression `make(map[string]string)`: a new empty map at a new address. -/
def Heap.make (h : Heap) : Heap × MapRef := (h ++ [[]], some h.length)

/-- The content of the map a reference points to. -/
def Heap.read (h : Heap) (r : MapRef) : Option AnnMap :=
  match r with
  | none => none
  | some a => h[a]?

/-- The statement `r[k] = v`; it panics on the nil map. -/
def Heap.write (h : Heap) (r : MapRef) (k v : String) : Option Heap :=
  match r with
  | none => none
  | some a =>
    match h[a]? with
    | none => none
    | some m => some (h.set a (m.set k v))

/-! ## constants.go -/

def annotationsForUpstreamOwnership : AnnMap :=
  [ ("io.azurecr.lpm.v1.subject.authors", "upstream"),
    ("io.azurecr.lpm.v1.subject.url", "upstream"),
    ("io.azurecr.lpm.v1.subject.source", "upstream"),
    ("io.azurecr.lpm.v1.subject.vendor", "upstream") ]

def annotationsForNonUpstreamOwnership : AnnMap :=
  [ ("io.azurecr.lpm.v1.subject.authors", "non-upstream"),
    ("io.azurecr.lpm.v1.subject.url", "non-upstream"),
    ("io.azurecr.lpm.v1.subject.source", "non-upstream"),
    ("io.azurecr.lpm.v1.subject.vendor", "non-upstream") ]

def annotationKeyForSubjectOriginalDockerfileFullCommand : String :=
  "io.azurecr.lpm.v1.subject.dockerfile.fullcommand"

def annotationKeyForSubjectMediaType : String := "io.azurecr.lpm.v1.subject.mediaType"
def annotationKeyForSubjectDigest : String := "io.azurecr.lpm.v1.subject.digest"
def annotationKeyForSubjectSize : String := "io.azurecr.lpm.v1.subject.size"

def mediaTypeForManifestLpm : String := "application/io.azurecr.distribution.manifest.v2.lpm.v1+json"
def mediaTypeForConfigLpm : String := "application/io.azurecr.container.image.v1.lpm.v1+json"
def mediaTypeForLayerLpm : String := "application/io.azurecr.image.rootfs.diff.tar.gzip.lpm.v1+json"

/-! ## The data model of analyze.go -/

/-- A parsed Dockerfile instruction (`dockerfile.Command`); of its fields the
program reads `Cmd` and `Original` only. -/
structure Command where
  Cmd : String
  Original : String
deriving DecidableEq, Repr

/-- A content hash (`goocispecv1.Hash`). -/
structure Hash where
  Algorithm : String
  Hex : String
deriving DecidableEq, Repr

/-- The method `Hash.String`. -/
def Hash.String (d : Hash) : String := d.Algorithm ++ ":" ++ d.Hex

/-- A subject descriptor (`goocispecv1.Descriptor`); the fields the program
never touches (URLs, Platform, Data) are left out. -/
structure Descriptor where
  MediaType : String
  Size : Int
  Digest : Hash
  Annotations : MapRef
deriving DecidableEq, Repr

/-- The subject manifest (`goocispecv1.Manifest`). -/
structure Manifest where
  SchemaVersion : Int
  MediaType : String
  Config : Descriptor
  Layers : List Descriptor
  Annotations : MapRef
deriving DecidableEq, Repr

/-- A reference descriptor (`ocispecv1.Descriptor`). -/
structure RefDescriptor where
  MediaType : String
  Digest : String
  Size : Int
  Annotations : MapRef
deriving DecidableEq, Repr

/-! ## analyze.go: deepCopyMap and modifyManifestWithDockerfileOrigin -/

/-- The function `deepCopyMap`: a new map, filled entry by entry from `m`.
Its one caller passes a package-level template, which nothing ever writes to,
so the argument is the template's content. -/
def deepCopyMap (h : Heap) (m : AnnMap) : Option (Heap × MapRef) :=
  let (h0, newMap) := h.make
  m.foldlM (fun (acc : Heap × MapRef) kv => (acc.1.write acc.2 kv.1 kv.2).map (fun h1 => (h1, acc.2)))
    (h0, newMap)

/-- The function `strings.ToUpper`, on the ASCII letters. The program only
compares its result with the literal FROM, and no code point outside ASCII
has F, R, O or M as its upper case, so the comparison is the same. -/
def strings_ToUpper (s : String) : String := String.mk (s.data.map Char.toUpper)

/-- The test of line 259: `strings.ToUpper(dockerfileCommands[d].Cmd) == "FROM"`. -/
def isFROM (c : Command) : Bool := strings_ToUpper c.Cmd == "FROM"

/-- The index expression `dockerfileCommands[d]` for the cursor `dn = d + 1`:
the index -1 (`dn = 0`) and any index past the end are the index panic. -/
def commandAt (dockerfileCommands : List Command) : Nat → Option Command
  | 0 => none
  | d + 1 => dockerfileCommands[d]?

/-- The pair of statements
`manifest.Layers[m].Annotations = deepCopyMap(tmpl)` and
`manifest.Layers[m].Annotations[fullcommand] = dockerfileCommands[d].Original`
(lines 264-265 and 270-271), in the source's order of evaluation, with the
instruction cursor given as `dn = d + 1`. -/
def annotateLayer (dockerfileCommands : List Command) (tmpl : AnnMap) (dn : Nat) (m : Nat)
    (h : Heap) (layers : List Descriptor) : Option (Heap × List Descriptor) := do
  let (h1, r) ← deepCopyMap h tmpl
  let l ← layers[m]?
  let layers1 := layers.set m { l with Annotations := r }
  let l1 ← layers1[m]?
  let c ← commandAt dockerfileCommands dn
  let h2 ← h1.write l1.Annotations annotationKeyForSubjectOriginalDockerfileFullCommand c.Original
  pure (h2, layers1)

/-- The first loop (lines 254-266). The cursors are kept one above their
value in the source: `dn = d + 1` and `mn = m + 1`, so the condition
`d >= 0 && m >= 0` is `dn` and `mn` both being successors. The result holds
the cursors on exit. -/
def loop1 (dockerfileCommands : List Command) :
    Nat → Nat → Heap → List Descriptor → Option (Nat × Nat × Heap × List Descriptor)
  | d + 1, m + 1, h, layers =>
    match commandAt dockerfileCommands (d + 1) with
    | none => none
    | some c =>
      if isFROM c then some (d + 1, m + 1, h, layers)
      else
        match annotateLayer dockerfileCommands annotationsForNonUpstreamOwnership (d + 1) m h layers with
        | none => none
        | some (h1, layers1) => loop1 dockerfileCommands d m h1 layers1
  | 0, mn, h, layers => some (0, mn, h, layers)
  | dn + 1, 0, h, layers => some (dn + 1, 0, h, layers)

/-- The second loop (lines 268-272); `dn = d + 1` does not change, and
`dockerfileCommands[d]` with `d = -1` is the index panic. -/
def loop2 (dockerfileCommands : List Command) (dn : Nat) :
    Nat → Heap → List Descriptor → Option (Heap × List Descriptor)
  | m + 1, h, layers =>
    match annotateLayer dockerfileCommands annotationsForUpstreamOwnership dn m h layers with
    | none => none
    | some (h1, layers1) => loop2 dockerfileCommands dn m h1 layers1
  | 0, h, layers => some (h, layers)

/-- The function `modifyManifestWithDockerfileOrigin`; the manifest behind the
pointer is passed and returned, `none` is a panic, and a returned value
stands for the pair of the manifest and the nil error. -/
def modifyManifestWithDockerfileOrigin (dockerfileCommands : List Command) (h : Heap)
    (manifest : Manifest) : Option (Heap × Manifest) := do
  let (h1, r1) ← deepCopyMap h annotationsForNonUpstreamOwnership
  let manifest1 := { manifest with Annotations := r1 }
  let (h2, r2) ← deepCopyMap h1 annotationsForNonUpstreamOwnership
  let manifest2 := { manifest1 with Config := { manifest1.Config with Annotations := r2 } }
  let (dn, mn, h3, layers3) ←
    loop1 dockerfileCommands dockerfileCommands.length manifest2.Layers.length h2 manifest2.Layers
  let (h4, layers4) ← loop2 dockerfileCommands dn mn h3 layers3
  pure (h4, { manifest2 with Layers := layers4 })

/-! ## analyze.go: the reference descriptors (lines 151-189) -/

/-- The call `fmt.Sprint` on an `int64`: the decimal numeral, with a minus sign
for a negative number. -/
def fmt_Sprint (n : Int) : String := toString n

/-- One pass of the loop body of lines 152-179. `layerAnnotations` is assigned
the map reference of the subject descriptor (no copy is made), the three
assignments go through that reference, and the reference descriptor holds it.
`FromBytes` is `digest.FromBytes` of the go-digest library, `content` the
empty byte slice. The conditional `memoryStore.Set`, which only reads the
descriptor, is left out. -/
def referenceLayer (FromBytes : List Nat → String) (h : Heap) (subjectLayerDesc : Descriptor) :
    Option (Heap × RefDescriptor) := do
  let layerAnnotations := subjectLayerDesc.Annotations
  let h1 ← h.write layerAnnotations annotationKeyForSubjectMediaType subjectLayerDesc.MediaType
  let h2 ← h1.write layerAnnotations annotationKeyForSubjectDigest subjectLayerDesc.Digest.String
  let h3 ← h2.write layerAnnotations annotationKeyForSubjectSize (fmt_Sprint subjectLayerDesc.Size)
  let content : List Nat := []
  let referenceLayerDesc : RefDescriptor :=
    { MediaType := mediaTypeForLayerLpm
      Digest := FromBytes content
      Size := content.length
      Annotations := layerAnnotations }
  pure (h3, referenceLayerDesc)

/-- The loop of lines 152-179 over the subject layers still to visit, with
`referenceLayerDescs` built so far. -/
def referenceLayers (FromBytes : List Nat → String) :
    Heap → List Descriptor → List RefDescriptor → Option (Heap × List RefDescriptor)
  | h, [], referenceLayerDescs => some (h, referenceLayerDescs)
  | h, subjectLayerDesc :: rest, referenceLayerDescs =>
    match referenceLayer FromBytes h subjectLayerDesc with
    | none => none
    | some (h1, referenceLayerDesc) =>
      referenceLayers FromBytes h1 rest (referenceLayerDescs ++ [referenceLayerDesc])

/-- What lines 125-189 of `analyzeCmd.run` leave behind: the heap, the subject
manifest, the reference layer descriptors and the annotation maps of the
reference manifest and of the reference config. -/
structure Built where
  heap : Heap
  subjectManifest : Manifest
  referenceLayerDescs : List RefDescriptor
  referenceManifestAnnotations : MapRef
  referenceConfigAnnotations : MapRef
deriving DecidableEq, Repr

/-- Lines 125-189 of `analyzeCmd.run`, from the parsed instructions and the
parsed subject manifest on. -/
def analyzeBuild (FromBytes : List Nat → String) (dockerfileCommands : List Command) (h : Heap)
    (subjectManifest : Manifest) : Option Built := do
  let (h1, subjectManifestWithDockerfileOrigin) ←
    modifyManifestWithDockerfileOrigin dockerfileCommands h subjectManifest
  let (h2, referenceLayerDescs) ←
    referenceLayers FromBytes h1 subjectManifestWithDockerfileOrigin.Layers []
  let referenceManifestAnnotations := subjectManifestWithDockerfileOrigin.Annotations
  let h3 ← h2.write referenceManifestAnnotations annotationKeyForSubjectMediaType
    subjectManifestWithDockerfileOrigin.MediaType
  let referenceConfigAnnotations := subjectManifestWithDockerfileOrigin.Config.Annotations
  let h4 ← h3.write referenceConfigAnnotations annotationKeyForSubjectMediaType
    subjectManifestWithDockerfileOrigin.Config.MediaType
  let h5 ← h4.write referenceConfigAnnotations annotationKeyForSubjectDigest
    subjectManifestWithDockerfileOrigin.Config.Digest.String
  let h6 ← h5.write referenceConfigAnnotations annotationKeyForSubjectSize
    (fmt_Sprint subjectManifestWithDockerfileOrigin.Config.Size)
  pure
    { heap := h6
      subjectManifest := subjectManifestWithDockerfileOrigin
      referenceLayerDescs := referenceLayerDescs
      referenceManifestAnnotations := referenceManifestAnnotations
      referenceConfigAnnotations := referenceConfigAnnotations }

/-! ## config-annotate.go: annotation processing (lines 113-123) -/

/-- The class `\s` of Go regular expressions: tab, newline, form feed,
carriage return and space. -/
def isReSpace (c : Char) : Bool :=
  c.toNat = 9 || c.toNat = 10 || c.toNat = 12 || c.toNat = 13 || c.toNat = 32

/-- The leftmost match of the regular expression `:\s*` in the text that
starts at offset `pos`: the offsets of its start and of its end. The match
starts at the first colon and, the star being greedy, takes all the white
space that follows it. -/
def findSeparator : List Char → Nat → Option (Nat × Nat)
  | [], _ => none
  | c :: rest, pos =>
    if c = ':' then some (pos, pos + 1 + (rest.takeWhile isReSpace).length)
    else findSeparator rest (pos + 1)

/-- The call `re.Split(s, 2)` for `re = :\s*`: at most two substrings, the
text before the leftmost match and the unsplit remainder after it; the whole
text when there is no match. -/
def reSplit2 (s : String) : List String :=
  match findSeparator s.data 0 with
  | none => [s]
  | some (b, e) => [String.mk (s.data.take b), String.mk (s.data.drop e)]

/-- The loop of lines 116-123 over the entries still to process, with
`annotationsMap` filled so far; the error is the message of `fmt.Errorf`.
The progress line written to stderr is left out. -/
def processAnnotations : List String → AnnMap → Except String AnnMap
  | [], annotationsMap => .ok annotationsMap
  | rawAnnotation :: rest, annotationsMap =>
    match reSplit2 rawAnnotation with
    | [key, value] => processAnnotations rest (annotationsMap.set key value)
    | _ => .error ("invalid annotation: " ++ rawAnnotation)

/-- Lines 114-123: annotation processing from the empty map of line 115. -/
def annotationProcessing (annotationSlice : List String) : Except String AnnMap :=
  processAnnotations annotationSlice []

/-! ## Vocabulary of the statements -/

/-- The five annotations of a classified layer: the four ownership keys, all
with the value `v`, and the originating instruction `text`. -/
def ownershipAnnotations (v text : String) : AnnMap :=
  [ ("io.azurecr.lpm.v1.subject.authors", v),
    ("io.azurecr.lpm.v1.subject.url", v),
    ("io.azurecr.lpm.v1.subject.source", v),
    ("io.azurecr.lpm.v1.subject.vendor", v),
    ("io.azurecr.lpm.v1.subject.dockerfile.fullcommand", text) ]

/-- The four ownership keys. -/
def ownershipKeys : List String :=
  [ "io.azurecr.lpm.v1.subject.authors",
    "io.azurecr.lpm.v1.subject.url",
    "io.azurecr.lpm.v1.subject.source",
    "io.azurecr.lpm.v1.subject.vendor" ]

/-- The descriptor's annotation map, read through the heap `h`, maps all four
ownership keys to `v`. -/
def classifiedAs (h : Heap) (l : Descriptor) (v : String) : Bool :=
  match h.read l.Annotations with
  | none => false
  | some m => ownershipKeys.all (fun k => m.get? k == some v)

/-- The originating instruction text the descriptor carries, read through `h`. -/
def originatingText (h : Heap) (l : Descriptor) : Option String :=
  match h.read l.Annotations with
  | none => none
  | some m => m.get? annotationKeyForSubjectOriginalDockerfileFullCommand

/-- The number of instructions that follow the last FROM instruction (all of
them when there is no FROM): the backward position of the first FROM met when
walking from the last instruction. -/
def instructionsAfterLastFROM (cmds : List Command) : Nat :=
  (cmds.reverse.takeWhile (fun c => !isFROM c)).length

/-- The text `dockerfileCommands[i].Original`, for an index in range. -/
def instructionText (cmds : List Command) (i : Nat) : String :=
  match cmds[i]? with
  | some c => c.Original
  | none => ""

/-- The content of the `j`-th layer map the correlator allocates, which is the
map of the layer `j` places below the top one. -/
def allocated (cmds : List Command) (j : Nat) : AnnMap :=
  if j < instructionsAfterLastFROM cmds then
    ownershipAnnotations "non-upstream" (instructionText cmds (cmds.length - 1 - j))
  else
    ownershipAnnotations "upstream"
      (instructionText cmds (cmds.length - 1 - instructionsAfterLastFROM cmds))

/-- The heap after a run of the correlator that returns: the maps of the
manifest and of the config, then one map per layer, top layer first. -/
def correlatedHeap (cmds : List Command) (h : Heap) (n : Nat) : Heap :=
  h ++ [annotationsForNonUpstreamOwnership, annotationsForNonUpstreamOwnership]
    ++ (List.range n).map (allocated cmds)

/-- The manifest after a run of the correlator that returns, `a` being the
size of the heap at the call. -/
def correlatedManifest (a : Nat) (manifest : Manifest) : Manifest :=
  { manifest with
    Annotations := some a
    Config := { manifest.Config with Annotations := some (a + 1) }
    Layers := manifest.Layers.mapIdx (fun i l =>
      { l with Annotations := some (a + 2 + (manifest.Layers.length - 1 - i)) }) }

/-- The subject manifest without its annotation references: schema version,
media types, digests, sizes and the layers in their order. -/
def withoutAnnotations (manifest : Manifest) : Manifest :=
  { manifest with
    Annotations := none
    Config := { manifest.Config with Annotations := none }
    Layers := manifest.Layers.map (fun l => { l with Annotations := none }) }

/-- A descriptor with its annotation map read through the heap. -/
structure DescriptorContent where
  MediaType : String
  Size : Int
  Digest : Hash
  Annotations : Option AnnMap
deriving DecidableEq, Repr

/-- A manifest with every annotation map read through the heap: what the
manifest says, whatever the addresses of its maps. -/
structure ManifestContent where
  SchemaVersion : Int
  MediaType : String
  Config : DescriptorContent
  Layers : List DescriptorContent
  Annotations : Option AnnMap
deriving DecidableEq, Repr

/-- The content of a descriptor in the heap `h`. -/
def descriptorContent (h : Heap) (d : Descriptor) : DescriptorContent :=
  { MediaType := d.MediaType, Size := d.Size, Digest := d.Digest,
    Annotations := h.read d.Annotations }

/-- The content of a manifest in the heap `h`. -/
def manifestContent (h : Heap) (manifest : Manifest) : ManifestContent :=
  { SchemaVersion := manifest.SchemaVersion
    MediaType := manifest.MediaType
    Config := descriptorContent h manifest.Config
    Layers := manifest.Layers.map (descriptorContent h)
    Annotations := h.read manifest.Annotations }

/-- The map `m` after the three assignments of lines 157-159 for the subject
layer `l`. -/
def withIdentity (m : AnnMap) (l : Descriptor) : AnnMap :=
  ((m.set annotationKeyForSubjectMediaType l.MediaType).set annotationKeyForSubjectDigest
    l.Digest.String).set annotationKeyForSubjectSize (fmt_Sprint l.Size)

/-- The reference descriptor of lines 163-168 for the subject layer `l`. -/
def referenceOf (FromBytes : List Nat → String) (l : Descriptor) : RefDescriptor :=
  { MediaType := mediaTypeForLayerLpm, Digest := FromBytes [], Size := 0,
    Annotations := l.Annotations }

/-- The content of the manifest a returning run of the correlator leaves. -/
def correlatedContent (cmds : List Command) (manifest : Manifest) : ManifestContent :=
  { SchemaVersion := manifest.SchemaVersion
    MediaType := manifest.MediaType
    Config :=
      { MediaType := manifest.Config.MediaType, Size := manifest.Config.Size,
        Digest := manifest.Config.Digest,
        Annotations := some annotationsForNonUpstreamOwnership }
    Layers := manifest.Layers.mapIdx (fun i l =>
      { MediaType := l.MediaType, Size := l.Size, Digest := l.Digest,
        Annotations := some (allocated cmds (manifest.Layers.length - 1 - i)) })
    Annotations := some annotationsForNonUpstreamOwnership }

/-- The entry contains a colon. -/
def hasSeparator (entry : String) : Bool := entry.data.contains ':'

/-- The text before the first colon of the entry. -/
def keyOf (entry : String) : String :=
  String.mk (entry.data.takeWhile (fun c => c != ':'))

/-- The text after the first colon of the entry, without the white space that
directly follows the colon. -/
def valueOf (entry : String) : String :=
  String.mk (((entry.data.dropWhile (fun c => c != ':')).drop 1).dropWhile isReSpace)

/-- A reference descriptor with its annotation map read through the heap. The
reference manifest is assembled from the reference layer descriptors, the
annotations of the reference manifest and of the reference config, and the
schema version. -/
structure RefDescriptorContent where
  MediaType : String
  Digest : String
  Size : Int
  Annotations : Option AnnMap
deriving DecidableEq, Repr

/-- The content of what lines 125-189 leave behind, see `RefDescriptorContent`. -/
structure BuiltContent where
  referenceLayers : List RefDescriptorContent
  manifestAnnotations : Option AnnMap
  configAnnotations : Option AnnMap
  schemaVersion : Int
deriving DecidableEq, Repr

/-- The content of what lines 125-189 leave behind. -/
def builtContent (b : Built) : BuiltContent :=
  { referenceLayers := b.referenceLayerDescs.map (fun r =>
      { MediaType := r.MediaType, Digest := r.Digest, Size := r.Size,
        Annotations := b.heap.read r.Annotations })
    manifestAnnotations := b.heap.read b.referenceManifestAnnotations
    configAnnotations := b.heap.read b.referenceConfigAnnotations
    schemaVersion := b.subjectManifest.SchemaVersion }

/-- The content lines 125-189 leave behind when the correlator returns. -/
def expectedBuilt (FromBytes : List Nat → String) (cmds : List Command) (manifest : Manifest) :
    BuiltContent :=
  { referenceLayers := manifest.Layers.mapIdx (fun i l =>
      { MediaType := mediaTypeForLayerLpm, Digest := FromBytes [], Size := 0,
        Annotations := some (withIdentity (allocated cmds (manifest.Layers.length - 1 - i)) l) })
    manifestAnnotations := some
      (annotationsForNonUpstreamOwnership.set annotationKeyForSubjectMediaType manifest.MediaType)
    configAnnotations := some (withIdentity annotationsForNonUpstreamOwnership manifest.Config)
    schemaVersion := manifest.SchemaVersion }

/-! ## Inputs of the examples -/

/-- A subject layer descriptor with no annotation map. -/
def exampleLayer (hex : String) (size : Int) : Descriptor :=
  { MediaType := "application/vnd.docker.image.rootfs.diff.tar.gzip"
    Size := size
    Digest := { Algorithm := "sha256", Hex := hex }
    Annotations := none }

/-- A subject manifest with the given layers and no annotation map. -/
def exampleManifest (layers : List Descriptor) : Manifest :=
  { SchemaVersion := 2
    MediaType := "application/vnd.docker.distribution.manifest.v2+json"
    Config :=
      { MediaType := "application/vnd.docker.container.image.v1+json"
        Size := 7023
        Digest := { Algorithm := "sha256", Hex := "c0" }
        Annotations := none }
    Layers := layers
    Annotations := none }

/-- Three layers, bottom to top. -/
def threeLayers : Manifest :=
  exampleManifest [exampleLayer "a0" 100, exampleLayer "a1" 200, exampleLayer "a2" 300]

/-- Two layers, bottom to top. -/
def twoLayers : Manifest := exampleManifest [exampleLayer "a0" 100, exampleLayer "a1" 200]

/-- The instructions FROM base, RUN a, COPY b. -/
def exampleCommands : List Command :=
  [ { Cmd := "from", Original := "FROM base" },
    { Cmd := "run", Original := "RUN a" },
    { Cmd := "copy", Original := "COPY b" } ]

/-- A heap that holds two maps before the call. -/
def exampleHeap : Heap :=
  [ [("org.opencontainers.image.vendor", "acme")],
    [("io.azurecr.lpm.v1.subject.authors", "upstream"), ("note", "kept from an earlier run")] ]

/-- Two layers whose descriptors, like the manifest and the config, already
refer to maps of `exampleHeap`. -/
def annotatedTwoLayers : Manifest :=
  { twoLayers with
    Annotations := some 0
    Config := { twoLayers.Config with Annotations := some 0 }
    Layers := twoLayers.Layers.map (fun l => { l with Annotations := some 1 }) }

/-- The function `digest.FromBytes` on the one argument the program gives it,
the empty byte slice: the SHA-256 digest of no data. -/
def exampleFromBytes (_content : List Nat) : String :=
  "sha256:e3b0c44298fc1c149afbf4c8996fb92427ae41e4649b934ca495991b7852b855"

/-- Annotations in the form of the usage example of config-annotate: white
space after a colon, a value with a colon of its own, and a key given twice. -/
def exampleAnnotations : List String :=
  [ "io.azurecr.eol.v1.subject.eol.date:2025-01-01",
    "io.azurecr.eol.v1.subject.eol.reason: \t end-of-maintenance",
    "io.azurecr.eol.v1.subject.eol.support.url:https://docs.microsoft.com/en-us/azure",
    "io.azurecr.eol.v1.subject.eol.date:2026-06-30" ]

/-! ## Facts about the heap operations -/

theorem write_fresh (h : Heap) (m : AnnMap) (k v : String) :
    Heap.write (h ++ [m]) (some h.length) k v = some (h ++ [m.set k v]) := by
  simp [Heap.write]

theorem deepCopyMap_upstream (h : Heap) :
    deepCopyMap h annotationsForUpstreamOwnership
      = some (h ++ [annotationsForUpstreamOwnership], some h.length) := by
  simp [deepCopyMap, Heap.make, annotationsForUpstreamOwnership, List.foldlM, write_fresh,
    AnnMap.set]

theorem deepCopyMap_nonUpstream (h : Heap) :
    deepCopyMap h annotationsForNonUpstreamOwnership
      = some (h ++ [annotationsForNonUpstreamOwnership], some h.length) := by
  simp [deepCopyMap, Heap.make, annotationsForNonUpstreamOwnership, List.foldlM, write_fresh,
    AnnMap.set]

/-! ## One loop body -/

theorem annotateLayer_eq (cmds : List Command) (tmpl : AnnMap) (dn m : Nat) (h : Heap)
    (ls : List Descriptor) (l : Descriptor) (c : Command)
    (htmpl : deepCopyMap h tmpl = some (h ++ [tmpl], some h.length))
    (hl : ls[m]? = some l) (hc : commandAt cmds dn = some c) :
    annotateLayer cmds tmpl dn m h ls
      = some (h ++ [tmpl.set annotationKeyForSubjectOriginalDockerfileFullCommand c.Original],
          ls.set m { l with Annotations := some h.length }) := by
  have hm : m < ls.length := by
    rcases Nat.lt_or_ge m ls.length with h1 | h1
    · exact h1
    · rw [List.getElem?_eq_none h1] at hl; cases hl
  simp [annotateLayer, htmpl, hl, hc, hm, write_fresh, List.getElem?_set_self]

theorem annotateLayer_panic (cmds : List Command) (tmpl : AnnMap) (dn m : Nat) (h : Heap)
    (ls : List Descriptor) (hc : commandAt cmds dn = none) :
    annotateLayer cmds tmpl dn m h ls = none := by
  unfold annotateLayer
  cases deepCopyMap h tmpl with
  | none => rfl
  | some p =>
    cases hl : ls[m]? with
    | none => simp [hl]
    | some l =>
      have hm : m < ls.length := by
        rcases Nat.lt_or_ge m ls.length with h1 | h1
        · exact h1
        · rw [List.getElem?_eq_none h1] at hl; cases hl
      simp [hl, hc, hm]

theorem set_upstream (text : String) :
    annotationsForUpstreamOwnership.set annotationKeyForSubjectOriginalDockerfileFullCommand text
      = ownershipAnnotations "upstream" text := by
  simp [annotationsForUpstreamOwnership, annotationKeyForSubjectOriginalDockerfileFullCommand,
    ownershipAnnotations, AnnMap.set]

theorem set_nonUpstream (text : String) :
    annotationsForNonUpstreamOwnership.set annotationKeyForSubjectOriginalDockerfileFullCommand text
      = ownershipAnnotations "non-upstream" text := by
  simp [annotationsForNonUpstreamOwnership, annotationKeyForSubjectOriginalDockerfileFullCommand,
    ownershipAnnotations, AnnMap.set]

/-! ## The two loops -/

theorem loop1_spec (cmds : List Command) :
    ∀ (dn mn : Nat) (h : Heap) (ls : List Descriptor), dn ≤ cmds.length → mn ≤ ls.length →
      ∃ (s : Nat) (ext : Heap) (ls' : List Descriptor),
        loop1 cmds dn mn h ls = some (dn - s, mn - s, h ++ ext, ls') ∧
        s ≤ dn ∧ s ≤ mn ∧ ext.length = s ∧ ls'.length = ls.length ∧
        (∀ j, j < s → ∃ c, cmds[dn - 1 - j]? = some c ∧ isFROM c = false ∧
          ext[j]? = some (ownershipAnnotations "non-upstream" c.Original)) ∧
        (∀ i l, ls[i]? = some l →
          ls'[i]? = some (if mn - s ≤ i ∧ i < mn
            then { l with Annotations := some (h.length + (mn - 1 - i)) } else l)) ∧
        (s = dn ∨ s = mn ∨ ∃ c, cmds[dn - 1 - s]? = some c ∧ isFROM c = true) := by
  intro dn
  induction dn with
  | zero =>
    intro mn h ls _ _
    refine ⟨0, [], ls, ?_, ?_, ?_, rfl, rfl, ?_, ?_, Or.inl rfl⟩
    · cases mn <;> simp [loop1]
    · exact Nat.le_refl 0
    · exact Nat.zero_le _
    · intro j hj; omega
    · intro i l hl
      have : ¬ (mn - 0 ≤ i ∧ i < mn) := by omega
      rw [if_neg this]; exact hl
  | succ d ih =>
    intro mn h ls hd hm
    cases mn with
    | zero =>
      refine ⟨0, [], ls, ?_, ?_, ?_, rfl, rfl, ?_, ?_, Or.inr (Or.inl rfl)⟩
      · simp [loop1]
      · exact Nat.zero_le _
      · exact Nat.le_refl 0
      · intro j hj; omega
      · intro i l hl
        have : ¬ (0 - 0 ≤ i ∧ i < 0) := by omega
        rw [if_neg this]; exact hl
    | succ m =>
      have hdlt : d < cmds.length := hd
      have hmlt : m < ls.length := hm
      obtain ⟨c, hc⟩ : ∃ c, cmds[d]? = some c := ⟨cmds[d], List.getElem?_eq_getElem hdlt⟩
      obtain ⟨l0, hl0⟩ : ∃ l0, ls[m]? = some l0 := ⟨ls[m], List.getElem?_eq_getElem hmlt⟩
      cases hF : isFROM c with
      | true =>
        refine ⟨0, [], ls, ?_, ?_, ?_, rfl, rfl, ?_, ?_, Or.inr (Or.inr ⟨c, ?_, hF⟩)⟩
        · simp [loop1, commandAt, hc, hF]
        · exact Nat.zero_le _
        · exact Nat.zero_le _
        · intro j hj; omega
        · intro i l hl
          have : ¬ (m + 1 - 0 ≤ i ∧ i < m + 1) := by omega
          rw [if_neg this]; exact hl
        · simpa using hc
      | false =>
        have hstep := annotateLayer_eq cmds annotationsForNonUpstreamOwnership (d + 1) m h ls l0 c
          (deepCopyMap_nonUpstream h) hl0 (by simpa [commandAt] using hc)
        rw [set_nonUpstream] at hstep
        obtain ⟨s, ext, ls', heq, hsd, hsm, hlen, hlen', hext, hlay, hexit⟩ :=
          ih m (h ++ [ownershipAnnotations "non-upstream" c.Original])
            (ls.set m { l0 with Annotations := some h.length }) (Nat.le_of_lt hdlt)
            (by simpa using Nat.le_of_lt hmlt)
        refine ⟨s + 1, ownershipAnnotations "non-upstream" c.Original :: ext, ls', ?_, ?_, ?_, ?_,
          ?_, ?_, ?_, ?_⟩
        · simp [loop1, commandAt, hc, hF, hstep, heq]
        · omega
        · omega
        · simp [hlen]
        · simpa using hlen'
        · intro j hj
          cases j with
          | zero => exact ⟨c, by simpa using hc, hF, by simp⟩
          | succ j =>
            obtain ⟨c', h1, h2, h3⟩ := hext j (by omega)
            refine ⟨c', ?_, h2, by simpa using h3⟩
            have : d + 1 - 1 - (j + 1) = d - 1 - j := by omega
            rw [this]; exact h1
        · intro i l hl
          by_cases him : i = m
          · subst him
            rw [hl0] at hl
            cases hl
            have h1 := hlay i { l0 with Annotations := some h.length }
              (by simp [List.getElem?_set_self hmlt])
            have h2 : ¬ (i - s ≤ i ∧ i < i) := by omega
            have h3 : i + 1 - (s + 1) ≤ i ∧ i < i + 1 := by omega
            rw [h1, if_neg h2, if_pos h3]
            simp
          · have h1 := hlay i l (by rw [List.getElem?_set_ne (Ne.symm him)]; exact hl)
            rw [h1]
            by_cases hin : m - s ≤ i ∧ i < m
            · have h3 : m + 1 - (s + 1) ≤ i ∧ i < m + 1 := by omega
              have h4 : h.length + 1 + (m - 1 - i) = h.length + (m + 1 - 1 - i) := by omega
              rw [if_pos hin, if_pos h3, List.length_append, List.length_singleton, h4]
            · have h3 : ¬ (m + 1 - (s + 1) ≤ i ∧ i < m + 1) := by omega
              rw [if_neg hin, if_neg h3]
        · rcases hexit with h1 | h1 | ⟨c', h1, h2⟩
          · exact Or.inl (by omega)
          · exact Or.inr (Or.inl (by omega))
          · refine Or.inr (Or.inr ⟨c', ?_, h2⟩)
            have : d + 1 - 1 - (s + 1) = d - 1 - s := by omega
            rw [this]; exact h1

theorem loop2_spec (cmds : List Command) (dn : Nat) (c : Command)
    (hc : commandAt cmds dn = some c) :
    ∀ (mn : Nat) (h : Heap) (ls : List Descriptor), mn ≤ ls.length →
      ∃ (ext : Heap) (ls' : List Descriptor),
        loop2 cmds dn mn h ls = some (h ++ ext, ls') ∧
        ext.length = mn ∧ ls'.length = ls.length ∧
        (∀ j, j < mn → ext[j]? = some (ownershipAnnotations "upstream" c.Original)) ∧
        (∀ i l, ls[i]? = some l →
          ls'[i]? = some (if i < mn
            then { l with Annotations := some (h.length + (mn - 1 - i)) } else l)) := by
  intro mn
  induction mn with
  | zero =>
    intro h ls _
    refine ⟨[], ls, by simp [loop2], rfl, rfl, ?_, ?_⟩
    · intro j hj; omega
    · intro i l hl
      rw [if_neg (Nat.not_lt_zero i)]; exact hl
  | succ m ih =>
    intro h ls hm
    have hmlt : m < ls.length := hm
    obtain ⟨l0, hl0⟩ : ∃ l0, ls[m]? = some l0 := ⟨ls[m], List.getElem?_eq_getElem hmlt⟩
    have hstep := annotateLayer_eq cmds annotationsForUpstreamOwnership dn m h ls l0 c
      (deepCopyMap_upstream h) hl0 hc
    rw [set_upstream] at hstep
    obtain ⟨ext, ls', heq, hlen, hlen', hext, hlay⟩ :=
      ih (h ++ [ownershipAnnotations "upstream" c.Original])
        (ls.set m { l0 with Annotations := some h.length }) (by simpa using Nat.le_of_lt hmlt)
    refine ⟨ownershipAnnotations "upstream" c.Original :: ext, ls', ?_, ?_, ?_, ?_, ?_⟩
    · simp [loop2, hstep, heq]
    · simp [hlen]
    · simpa using hlen'
    · intro j hj
      cases j with
      | zero => simp
      | succ j => simpa using hext j (by omega)
    · intro i l hl
      by_cases him : i = m
      · subst him
        rw [hl0] at hl
        cases hl
        have h1 := hlay i { l0 with Annotations := some h.length }
          (by simp [List.getElem?_set_self hmlt])
        rw [h1, if_neg (Nat.lt_irrefl i), if_pos (Nat.lt_succ_self i)]
        simp
      · have h1 := hlay i l (by rw [List.getElem?_set_ne (Ne.symm him)]; exact hl)
        rw [h1]
        by_cases hin : i < m
        · have h4 : h.length + 1 + (m - 1 - i) = h.length + (m + 1 - 1 - i) := by omega
          rw [if_pos hin, if_pos (Nat.lt_succ_of_lt hin), List.length_append,
            List.length_singleton, h4]
        · have h3 : ¬ i < m + 1 := by omega
          rw [if_neg hin, if_neg h3]

theorem loop2_panic (cmds : List Command) (dn : Nat) (hc : commandAt cmds dn = none)
    (m : Nat) (h : Heap) (ls : List Descriptor) : loop2 cmds dn (m + 1) h ls = none := by
  simp [loop2, annotateLayer_panic cmds _ dn m h ls hc]

/-! ## The instructions after the last FROM -/

theorem takeWhile_length_le {α : Type} (p : α → Bool) (xs : List α) :
    (xs.takeWhile p).length ≤ xs.length := by
  induction xs with
  | nil => simp
  | cons x xs ih =>
    by_cases hx : p x = true
    · simp [List.takeWhile_cons, hx]; exact ih
    · simp [List.takeWhile_cons, hx]

theorem takeWhile_holds {α : Type} (p : α → Bool) (xs : List α) :
    ∀ j, j < (xs.takeWhile p).length → ∃ x, xs[j]? = some x ∧ p x = true := by
  induction xs with
  | nil => intro j hj; simp at hj
  | cons x xs ih =>
    intro j hj
    by_cases hx : p x = true
    · simp [List.takeWhile_cons, hx] at hj
      cases j with
      | zero => exact ⟨x, by simp, hx⟩
      | succ j => simpa using ih j (by omega)
    · simp [List.takeWhile_cons, hx] at hj

theorem takeWhile_stops {α : Type} (p : α → Bool) (xs : List α)
    (hlt : (xs.takeWhile p).length < xs.length) :
    ∃ x, xs[(xs.takeWhile p).length]? = some x ∧ p x = false := by
  induction xs with
  | nil => simp at hlt
  | cons x xs ih =>
    by_cases hx : p x = true
    · simp [List.takeWhile_cons, hx] at hlt ⊢
      exact ih hlt
    · simp [List.takeWhile_cons, hx]

theorem after_le (cmds : List Command) : instructionsAfterLastFROM cmds ≤ cmds.length := by
  have := takeWhile_length_le (fun c => !isFROM c) cmds.reverse
  simpa [instructionsAfterLastFROM] using this

theorem after_notFROM (cmds : List Command) (j : Nat) (hj : j < instructionsAfterLastFROM cmds) :
    ∃ c, cmds[cmds.length - 1 - j]? = some c ∧ isFROM c = false := by
  obtain ⟨c, h1, h2⟩ := takeWhile_holds (fun c => !isFROM c) cmds.reverse j hj
  have hjI : j < cmds.length := Nat.lt_of_lt_of_le hj (after_le cmds)
  rw [List.getElem?_reverse hjI] at h1
  exact ⟨c, h1, by simpa using h2⟩

theorem after_FROM (cmds : List Command) (hlt : instructionsAfterLastFROM cmds < cmds.length) :
    ∃ c, cmds[cmds.length - 1 - instructionsAfterLastFROM cmds]? = some c ∧ isFROM c = true := by
  obtain ⟨c, h1, h2⟩ := takeWhile_stops (fun c => !isFROM c) cmds.reverse
    (by simpa [instructionsAfterLastFROM] using hlt)
  rw [List.getElem?_reverse (by simpa [instructionsAfterLastFROM] using hlt)] at h1
  exact ⟨c, h1, by simpa using h2⟩

/-! ## The correlator in closed form -/

theorem heap_ext (cmds : List Command) (n : Nat) (ext : Heap) (hlen : ext.length = n)
    (hget : ∀ j, j < n → ext[j]? = some (allocated cmds j)) :
    ext = (List.range n).map (allocated cmds) := by
  apply List.ext_getElem?
  intro j
  rcases Nat.lt_or_ge j n with hj | hj
  · rw [hget j hj, List.getElem?_map, List.getElem?_range hj]; rfl
  · rw [List.getElem?_eq_none (by omega), List.getElem?_eq_none (by simpa using hj)]

theorem layers_ext (a : Nat) (ls ls' : List Descriptor) (hlen : ls'.length = ls.length)
    (hget : ∀ (i : Nat) (l : Descriptor), ls[i]? = some l →
      ls'[i]? = some { l with Annotations := some (a + (ls.length - 1 - i)) }) :
    ls' = ls.mapIdx (fun i l => { l with Annotations := some (a + (ls.length - 1 - i)) }) := by
  apply List.ext_getElem?
  intro i
  rw [List.getElem?_mapIdx]
  cases hl : ls[i]? with
  | none =>
    have : ls.length ≤ i := by
      rcases Nat.lt_or_ge i ls.length with h1 | h1
      · rw [List.getElem?_eq_getElem h1] at hl; cases hl
      · exact h1
    rw [List.getElem?_eq_none (by omega)]; rfl
  | some l => rw [hget i l hl]; rfl

theorem walk_length (cmds : List Command) (n s : Nat) (hsI : s ≤ cmds.length) (hsN : s ≤ n)
    (hext : ∀ j, j < s → ∃ c, cmds[cmds.length - 1 - j]? = some c ∧ isFROM c = false)
    (hexit : s = cmds.length ∨ s = n ∨
      ∃ c, cmds[cmds.length - 1 - s]? = some c ∧ isFROM c = true) :
    s = min (instructionsAfterLastFROM cmds) n := by
  have ht := after_le cmds
  have h1 : s ≤ instructionsAfterLastFROM cmds := by
    by_contra hcon
    have hlt : instructionsAfterLastFROM cmds < cmds.length := by omega
    obtain ⟨c, hc, hF⟩ := after_FROM cmds hlt
    obtain ⟨c', hc', hF'⟩ := hext (instructionsAfterLastFROM cmds) (by omega)
    rw [hc] at hc'; cases hc'
    rw [hF] at hF'; cases hF'
  rcases hexit with h2 | h2 | ⟨c, hc, hF⟩
  · omega
  · omega
  · have h3 : instructionsAfterLastFROM cmds ≤ s := by
      by_contra hcon
      obtain ⟨c', hc', hF'⟩ := after_notFROM cmds s (by omega)
      rw [hc] at hc'; cases hc'
      rw [hF] at hF'; cases hF'
    omega

theorem correlator_unfold (cmds : List Command) (h : Heap) (M : Manifest) :
    modifyManifestWithDockerfileOrigin cmds h M
      = (loop1 cmds cmds.length M.Layers.length
          (h ++ [annotationsForNonUpstreamOwnership] ++ [annotationsForNonUpstreamOwnership])
          M.Layers).bind (fun r =>
        (loop2 cmds r.1 r.2.1 r.2.2.1 r.2.2.2).bind (fun q =>
          some (q.1, { M with
            Annotations := some h.length
            Config := { M.Config with Annotations := some (h.length + 1) }
            Layers := q.2 }))) := by
  simp only [modifyManifestWithDockerfileOrigin, deepCopyMap_nonUpstream, bind, Option.bind,
    List.length_append, List.length_singleton, pure]

theorem correlator_panics (cmds : List Command) (h : Heap) (M : Manifest)
    (hno : instructionsAfterLastFROM cmds = cmds.length)
    (hlt : cmds.length < M.Layers.length) :
    modifyManifestWithDockerfileOrigin cmds h M = none := by
  obtain ⟨s, ext, ls', heq, hsd, hsm, _, _, hext, _, hexit⟩ :=
    loop1_spec cmds cmds.length M.Layers.length
      (h ++ [annotationsForNonUpstreamOwnership] ++ [annotationsForNonUpstreamOwnership])
      M.Layers (Nat.le_refl _) (Nat.le_refl _)
  have hs := walk_length cmds M.Layers.length s hsd hsm
    (fun j hj => (hext j hj).imp (fun _ hc => ⟨hc.1, hc.2.1⟩)) hexit
  have hsI : s = cmds.length := by omega
  obtain ⟨m, hm⟩ : ∃ m, M.Layers.length - s = m + 1 := ⟨M.Layers.length - s - 1, by omega⟩
  have hd : cmds.length - s = 0 := by omega
  rw [correlator_unfold, heq]
  simp only [Option.bind, hm, hd]
  rw [loop2_panic cmds 0 rfl]

theorem correlator_returns (cmds : List Command) (h : Heap) (M : Manifest)
    (hret : instructionsAfterLastFROM cmds < cmds.length ∨ M.Layers.length ≤ cmds.length) :
    modifyManifestWithDockerfileOrigin cmds h M
      = some (correlatedHeap cmds h M.Layers.length, correlatedManifest h.length M) := by
  obtain ⟨s, ext, ls', heq, hsd, hsm, hlen, hlen', hext, hlay, hexit⟩ :=
    loop1_spec cmds cmds.length M.Layers.length
      (h ++ [annotationsForNonUpstreamOwnership] ++ [annotationsForNonUpstreamOwnership])
      M.Layers (Nat.le_refl _) (Nat.le_refl _)
  have hs := walk_length cmds M.Layers.length s hsd hsm
    (fun j hj => (hext j hj).imp (fun _ hc => ⟨hc.1, hc.2.1⟩)) hexit
  have ht := after_le cmds
  have hext' : ∀ j, j < s → ext[j]? = some (allocated cmds j) := by
    intro j hj
    obtain ⟨c, hc, _, hj'⟩ := hext j hj
    have hjt : j < instructionsAfterLastFROM cmds := by omega
    rw [hj', allocated, if_pos hjt, instructionText, hc]
  rw [correlator_unfold, heq]
  by_cases hsN : s = M.Layers.length
  · have hm : M.Layers.length - s = 0 := by omega
    simp only [Option.bind, hm, loop2]
    have h1 : ext = (List.range M.Layers.length).map (allocated cmds) :=
      heap_ext cmds _ ext (by omega) (by intro j hj; exact hext' j (by omega))
    have h2 : ls' = M.Layers.mapIdx (fun i l =>
        { l with Annotations := some (h.length + 2 + (M.Layers.length - 1 - i)) }) := by
      apply layers_ext (h.length + 2) M.Layers ls' hlen'
      intro i l hl
      have hi : i < M.Layers.length := by
        rcases Nat.lt_or_ge i M.Layers.length with h1 | h1
        · exact h1
        · rw [List.getElem?_eq_none h1] at hl; cases hl
      rw [hlay i l hl, if_pos (by omega)]
      simp
    rw [h1, h2]
    simp [correlatedHeap, correlatedManifest]
  · have hst : s = instructionsAfterLastFROM cmds := by omega
    have hsI : s < cmds.length := by omega
    obtain ⟨c, hc, hF⟩ := after_FROM cmds (by omega)
    have hcAt : commandAt cmds (cmds.length - s) = some c := by
      obtain ⟨d, hd⟩ : ∃ d, cmds.length - s = d + 1 := ⟨cmds.length - s - 1, by omega⟩
      rw [hd, commandAt]
      have : d = cmds.length - 1 - instructionsAfterLastFROM cmds := by omega
      rw [this]; exact hc
    obtain ⟨ext2, ls2, heq2, hlen2, hlen2', hext2, hlay2⟩ :=
      loop2_spec cmds (cmds.length - s) c hcAt (M.Layers.length - s)
        (h ++ [annotationsForNonUpstreamOwnership] ++ [annotationsForNonUpstreamOwnership] ++ ext)
        ls' (by omega)
    simp only [Option.bind, heq2]
    have h1 : ext ++ ext2 = (List.range M.Layers.length).map (allocated cmds) := by
      apply heap_ext cmds _ _ (by simp [hlen, hlen2]; omega)
      intro j hj
      rcases Nat.lt_or_ge j s with hjs | hjs
      · rw [List.getElem?_append_left (by omega)]; exact hext' j hjs
      · rw [List.getElem?_append_right (by omega), hlen, hext2 (j - s) (by omega), allocated,
          if_neg (by omega), instructionText, hc]
    have h2 : ls2 = M.Layers.mapIdx (fun i l =>
        { l with Annotations := some (h.length + 2 + (M.Layers.length - 1 - i)) }) := by
      apply layers_ext (h.length + 2) M.Layers ls2 (by omega)
      intro i l hl
      have hi : i < M.Layers.length := by
        rcases Nat.lt_or_ge i M.Layers.length with h1 | h1
        · exact h1
        · rw [List.getElem?_eq_none h1] at hl; cases hl
      rw [hlay2 i _ (hlay i l hl)]
      by_cases hin : i < M.Layers.length - s
      · rw [if_pos hin, if_neg (by omega)]
        simp [hlen]
        omega
      · rw [if_neg hin, if_pos (by omega)]
        simp
    simp only [correlatedHeap, correlatedManifest, ← h1, ← h2]
    simp

/-! ## What a returned manifest looks like -/

theorem getElem?_lt {α : Type} (xs : List α) (i : Nat) (x : α) (hx : xs[i]? = some x) :
    i < xs.length := by
  rcases Nat.lt_or_ge i xs.length with h1 | h1
  · exact h1
  · rw [List.getElem?_eq_none h1] at hx; cases hx

theorem correlator_returned (cmds : List Command) (h h' : Heap) (M M' : Manifest)
    (hret : modifyManifestWithDockerfileOrigin cmds h M = some (h', M')) :
    (instructionsAfterLastFROM cmds < cmds.length ∨ M.Layers.length ≤ cmds.length) ∧
      h' = correlatedHeap cmds h M.Layers.length ∧ M' = correlatedManifest h.length M := by
  have ht := after_le cmds
  by_cases hcond : instructionsAfterLastFROM cmds < cmds.length ∨ M.Layers.length ≤ cmds.length
  · rw [correlator_returns cmds h M hcond] at hret
    cases hret
    exact ⟨hcond, rfl, rfl⟩
  · rw [correlator_panics cmds h M (by omega) (by omega)] at hret
    cases hret

theorem correlated_read (cmds : List Command) (h : Heap) (n j : Nat) (hj : j < n) :
    (correlatedHeap cmds h n).read (some (h.length + 2 + j)) = some (allocated cmds j) := by
  have h1 : (h ++ [annotationsForNonUpstreamOwnership, annotationsForNonUpstreamOwnership]).length
      = h.length + 2 := by simp
  rw [correlatedHeap, Heap.read, List.getElem?_append_right (by omega), h1,
    Nat.add_sub_cancel_left, List.getElem?_map, List.getElem?_range hj]
  rfl

theorem returned_layer (cmds : List Command) (h h' : Heap) (M M' : Manifest)
    (hret : modifyManifestWithDockerfileOrigin cmds h M = some (h', M'))
    (i : Nat) (l' : Descriptor) (hl' : M'.Layers[i]? = some l') :
    ∃ l, M.Layers[i]? = some l ∧ i < M.Layers.length ∧
      l' = { l with Annotations := some (h.length + 2 + (M.Layers.length - 1 - i)) } ∧
      h'.read l'.Annotations = some (allocated cmds (M.Layers.length - 1 - i)) := by
  obtain ⟨_, hh, hM⟩ := correlator_returned cmds h h' M M' hret
  subst hh hM
  simp only [correlatedManifest, List.getElem?_mapIdx] at hl'
  cases hl : M.Layers[i]? with
  | none => rw [hl] at hl'; cases hl'
  | some l =>
    rw [hl] at hl'
    have hi := getElem?_lt _ _ _ hl
    simp only [Option.map] at hl'
    cases hl'
    exact ⟨l, rfl, hi, rfl, correlated_read cmds h _ _ (by omega)⟩

theorem returned_length (cmds : List Command) (h h' : Heap) (M M' : Manifest)
    (hret : modifyManifestWithDockerfileOrigin cmds h M = some (h', M')) :
    M'.Layers.length = M.Layers.length := by
  obtain ⟨_, _, hM⟩ := correlator_returned cmds h h' M M' hret
  subst hM
  simp [correlatedManifest]

theorem classifiedAs_iff (h : Heap) (l : Descriptor) (v v' text : String)
    (hread : h.read l.Annotations = some (ownershipAnnotations v text)) :
    classifiedAs h l v' = true ↔ v = v' := by
  simp [classifiedAs, hread, ownershipKeys, ownershipAnnotations, AnnMap.get?]

theorem originatingText_eq (h : Heap) (l : Descriptor) (v text : String)
    (hread : h.read l.Annotations = some (ownershipAnnotations v text)) :
    originatingText h l = some text := by
  simp [originatingText, hread, ownershipAnnotations, AnnMap.get?,
    annotationKeyForSubjectOriginalDockerfileFullCommand]

theorem after_unique (cmds : List Command) (k : Nat) (hk : k < cmds.length)
    (hfrom : ∃ c, cmds[cmds.length - 1 - k]? = some c ∧ isFROM c = true)
    (hbefore : ∀ j, j < k → ∃ c, cmds[cmds.length - 1 - j]? = some c ∧ isFROM c = false) :
    instructionsAfterLastFROM cmds = k := by
  have ht := after_le cmds
  obtain ⟨c, hc, hF⟩ := hfrom
  rcases Nat.lt_trichotomy (instructionsAfterLastFROM cmds) k with h1 | h1 | h1
  · obtain ⟨c1, hc1, hF1⟩ := after_FROM cmds (by omega)
    obtain ⟨c2, hc2, hF2⟩ := hbefore _ h1
    rw [hc1] at hc2; cases hc2
    rw [hF1] at hF2; cases hF2
  · exact h1
  · obtain ⟨c1, hc1, hF1⟩ := after_notFROM cmds k h1
    rw [hc] at hc1; cases hc1
    rw [hF] at hF1; cases hF1

theorem allocated_nonUpstream (cmds : List Command) (j : Nat) (c : Command)
    (hj : j < instructionsAfterLastFROM cmds) (hc : cmds[cmds.length - 1 - j]? = some c) :
    allocated cmds j = ownershipAnnotations "non-upstream" c.Original := by
  rw [allocated, if_pos hj, instructionText, hc]

theorem allocated_upstream (cmds : List Command) (j : Nat) (c : Command)
    (hj : instructionsAfterLastFROM cmds ≤ j)
    (hc : cmds[cmds.length - 1 - instructionsAfterLastFROM cmds]? = some c) :
    allocated cmds j = ownershipAnnotations "upstream" c.Original := by
  rw [allocated, if_neg (by omega), instructionText, hc]

theorem allocated_cases (cmds : List Command) (j : Nat) :
    ∃ v text, (v = "upstream" ∨ v = "non-upstream") ∧
      allocated cmds j = ownershipAnnotations v text := by
  by_cases hj : j < instructionsAfterLastFROM cmds
  · exact ⟨_, _, Or.inr rfl, by rw [allocated, if_pos hj]⟩
  · exact ⟨_, _, Or.inl rfl, by rw [allocated, if_neg hj]⟩

/-! ## The claims about the correlator -/

/-- C1: when the first FROM met walking backward from the last instruction is
at backward position `k` and `k` is at most the number `N` of layers, the
correlator returns, and in the returned manifest the layers classified
non-upstream are exactly those at the indices `N-k .. N-1` and the layers
classified upstream exactly those at the indices `0 .. N-k-1`. -/
theorem C1_boundary_classification (cmds : List Command) (h : Heap) (M : Manifest) (k : Nat)
    (hk : k < cmds.length)
    (hfrom : (cmds[cmds.length - 1 - k]?).map isFROM = some true)
    (hbefore : ∀ j, j < k → (cmds[cmds.length - 1 - j]?).map isFROM = some false)
    (hkN : k ≤ M.Layers.length) :
    ∃ h' M', modifyManifestWithDockerfileOrigin cmds h M = some (h', M') ∧
      M'.Layers.length = M.Layers.length ∧
      ∀ i l, M'.Layers[i]? = some l →
        (classifiedAs h' l "non-upstream" = true ↔ M.Layers.length - k ≤ i) ∧
        (classifiedAs h' l "upstream" = true ↔ i < M.Layers.length - k) := by
  have hfrom' : ∃ c, cmds[cmds.length - 1 - k]? = some c ∧ isFROM c = true := by
    cases hc : cmds[cmds.length - 1 - k]? with
    | none => rw [hc] at hfrom; cases hfrom
    | some c => rw [hc] at hfrom; exact ⟨c, rfl, by simpa using hfrom⟩
  have hbefore' : ∀ j, j < k → ∃ c, cmds[cmds.length - 1 - j]? = some c ∧ isFROM c = false := by
    intro j hj
    have := hbefore j hj
    cases hc : cmds[cmds.length - 1 - j]? with
    | none => rw [hc] at this; cases this
    | some c => rw [hc] at this; exact ⟨c, rfl, by simpa using this⟩
  have ht := after_unique cmds k hk hfrom' hbefore'
  have hret := correlator_returns cmds h M (Or.inl (by omega))
  refine ⟨_, _, hret, returned_length cmds h _ M _ hret, ?_⟩
  intro i l hl
  obtain ⟨l0, _, hi, _, hread⟩ := returned_layer cmds h _ M _ hret i l hl
  by_cases hik : M.Layers.length - k ≤ i
  · obtain ⟨c, hc, _⟩ := hbefore' (M.Layers.length - 1 - i) (by omega)
    rw [allocated_nonUpstream cmds _ c (by omega) hc] at hread
    rw [classifiedAs_iff _ _ _ _ _ hread, classifiedAs_iff _ _ _ _ _ hread]
    constructor
    · exact ⟨fun _ => hik, fun _ => rfl⟩
    · constructor
      · intro hv; exact absurd hv (by decide)
      · intro hv; omega
  · obtain ⟨c, hc, _⟩ := hfrom'
    rw [allocated_upstream cmds _ c (by omega) (by rw [ht]; exact hc)] at hread
    rw [classifiedAs_iff _ _ _ _ _ hread, classifiedAs_iff _ _ _ _ _ hread]
    constructor
    · constructor
      · intro hv; exact absurd hv (by decide)
      · intro hv; exact absurd hv hik
    · exact ⟨fun _ => by omega, fun _ => rfl⟩

/-- C1, at the instructions FROM base, RUN a, COPY b (the FROM at backward
position 2) and three layers. -/
theorem C1_boundary_classification_witness :
    ∃ h' M', modifyManifestWithDockerfileOrigin exampleCommands [] threeLayers = some (h', M') ∧
      M'.Layers.length = threeLayers.Layers.length ∧
      ∀ i l, M'.Layers[i]? = some l →
        (classifiedAs h' l "non-upstream" = true ↔ threeLayers.Layers.length - 2 ≤ i) ∧
        (classifiedAs h' l "upstream" = true ↔ i < threeLayers.Layers.length - 2) :=
  C1_boundary_classification exampleCommands [] threeLayers 2 (by decide) (by decide)
    (by decide) (by decide)

/-- C2: with the empty instruction sequence and two layers the correlator does
not return, whatever the heap: the second loop reads `dockerfileCommands[-1]`
at its first pass, on the top layer. -/
theorem C2_empty_instructions_two_layers_panic :
    ∀ h : Heap, modifyManifestWithDockerfileOrigin [] h twoLayers = none :=
  fun h => correlator_panics [] h twoLayers rfl (by decide)

theorem getElem?_append_end (pre cmds : List Command) (j : Nat) (hj : j < cmds.length) :
    (pre ++ cmds)[(pre ++ cmds).length - 1 - j]? = cmds[cmds.length - 1 - j]? := by
  rw [List.getElem?_append_right (by simp; omega)]
  congr 1
  simp
  omega

theorem after_append_lt (pre cmds : List Command)
    (hlt : instructionsAfterLastFROM cmds < cmds.length) :
    instructionsAfterLastFROM (pre ++ cmds) = instructionsAfterLastFROM cmds := by
  apply after_unique
  · simp; omega
  · rw [getElem?_append_end pre cmds _ hlt]; exact after_FROM cmds hlt
  · intro j hj
    rw [getElem?_append_end pre cmds _ (by omega)]; exact after_notFROM cmds j hj

theorem after_append_ge (pre cmds : List Command)
    (hall : instructionsAfterLastFROM cmds = cmds.length) :
    cmds.length ≤ instructionsAfterLastFROM (pre ++ cmds) := by
  by_contra hcon
  have h1 : instructionsAfterLastFROM (pre ++ cmds) < (pre ++ cmds).length := by simp; omega
  obtain ⟨c, hc, hF⟩ := after_FROM (pre ++ cmds) h1
  rw [getElem?_append_end pre cmds _ (by omega)] at hc
  obtain ⟨c', hc', hF'⟩ := after_notFROM cmds (instructionsAfterLastFROM (pre ++ cmds)) (by omega)
  rw [hc] at hc'; cases hc'
  rw [hF] at hF'; cases hF'

theorem allocated_append (pre cmds : List Command) (j : Nat) (hj : j < cmds.length) :
    allocated (pre ++ cmds) j = allocated cmds j := by
  have ht := after_le cmds
  rcases Nat.lt_or_ge (instructionsAfterLastFROM cmds) cmds.length with hlt | hge
  · rw [allocated, allocated, after_append_lt pre cmds hlt, instructionText, instructionText,
      instructionText, instructionText, getElem?_append_end pre cmds _ hj,
      getElem?_append_end pre cmds _ hlt]
  · have h1 := after_append_ge pre cmds (by omega)
    rw [allocated, allocated, if_pos (by omega), if_pos (by omega), instructionText,
      instructionText, getElem?_append_end pre cmds _ hj]

/-- C3: whenever the correlator returns, for every `j` below both the number
`t` of instructions after the last FROM and the number `N` of layers, the
layer at index `N-1-j` carries the Original text of the instruction at index
`I-1-j`; and when the instructions are at least as many as the layers, any
instructions put in front of them change nothing of the result. -/
theorem C3_paired_from_the_end (cmds : List Command) (h h' : Heap) (M M' : Manifest)
    (hret : modifyManifestWithDockerfileOrigin cmds h M = some (h', M')) :
    (∀ j, j < min (instructionsAfterLastFROM cmds) M.Layers.length →
      ∃ l c, M'.Layers[M.Layers.length - 1 - j]? = some l ∧
        cmds[cmds.length - 1 - j]? = some c ∧
        originatingText h' l = some c.Original) ∧
    (M.Layers.length ≤ cmds.length →
      ∀ pre, modifyManifestWithDockerfileOrigin (pre ++ cmds) h M = some (h', M')) := by
  constructor
  · intro j hj
    have hjN : j < M.Layers.length := by omega
    have hlen := returned_length cmds h h' M M' hret
    obtain ⟨l, hl⟩ : ∃ l, M'.Layers[M.Layers.length - 1 - j]? = some l :=
      ⟨M'.Layers[M.Layers.length - 1 - j], List.getElem?_eq_getElem (by omega)⟩
    obtain ⟨_, _, _, _, hread⟩ := returned_layer cmds h h' M M' hret _ l hl
    have hidx : M.Layers.length - 1 - (M.Layers.length - 1 - j) = j := by omega
    rw [hidx] at hread
    obtain ⟨c, hc, _⟩ := after_notFROM cmds j (by omega)
    rw [allocated_nonUpstream cmds j c (by omega) hc] at hread
    exact ⟨l, c, hl, hc, originatingText_eq _ _ _ _ hread⟩
  · intro hle pre
    obtain ⟨_, hh, hM⟩ := correlator_returned cmds h h' M M' hret
    rw [correlator_returns (pre ++ cmds) h M (Or.inr (by simp; omega)), hh, hM]
    have : (List.range M.Layers.length).map (allocated (pre ++ cmds))
        = (List.range M.Layers.length).map (allocated cmds) := by
      apply List.map_congr_left
      intro j hj
      exact allocated_append pre cmds j (by have := List.mem_range.mp hj; omega)
    rw [correlatedHeap, correlatedHeap, this]

/-- C3, at three layers and the instructions FROM base, RUN a, COPY b. -/
theorem C3_paired_from_the_end_witness :
    modifyManifestWithDockerfileOrigin exampleCommands [] threeLayers
      = some (correlatedHeap exampleCommands [] 3, correlatedManifest 0 threeLayers) ∧
    ((∀ j, j < min (instructionsAfterLastFROM exampleCommands) threeLayers.Layers.length →
      ∃ l c, (correlatedManifest 0 threeLayers).Layers[threeLayers.Layers.length - 1 - j]? = some l ∧
        exampleCommands[exampleCommands.length - 1 - j]? = some c ∧
        originatingText (correlatedHeap exampleCommands [] 3) l = some c.Original) ∧
    (threeLayers.Layers.length ≤ exampleCommands.length →
      ∀ pre, modifyManifestWithDockerfileOrigin (pre ++ exampleCommands) [] threeLayers
        = some (correlatedHeap exampleCommands [] 3, correlatedManifest 0 threeLayers))) ∧
    (correlatedManifest 0 threeLayers).Layers.map
        (originatingText (correlatedHeap exampleCommands [] 3))
      = [some "FROM base", some "RUN a", some "COPY b"] :=
  ⟨by decide, C3_paired_from_the_end exampleCommands [] _ threeLayers _ (by decide), by decide⟩

theorem loop1_cursor (cmds : List Command) (h : Heap) (ls : List Descriptor)
    (hlt : instructionsAfterLastFROM cmds < ls.length) :
    ∃ mn h1 ls1, loop1 cmds cmds.length ls.length h ls
      = some (cmds.length - instructionsAfterLastFROM cmds, mn, h1, ls1) := by
  obtain ⟨s, ext, ls', heq, hsd, hsm, _, _, hext, _, hexit⟩ :=
    loop1_spec cmds cmds.length ls.length h ls (Nat.le_refl _) (Nat.le_refl _)
  have hs := walk_length cmds ls.length s hsd hsm
    (fun j hj => (hext j hj).imp (fun _ hc => ⟨hc.1, hc.2.1⟩)) hexit
  have hst : s = instructionsAfterLastFROM cmds := by omega
  rw [hst] at heq
  exact ⟨_, _, _, heq⟩

/-- C4: whenever the correlator returns with at least one layer classified
upstream, the first loop stopped with its instruction cursor on a FROM
instruction, the last FROM of the sequence, and every layer classified
upstream carries the Original text of that one instruction. -/
theorem C4_upstream_text (cmds : List Command) (h h' : Heap) (M M' : Manifest)
    (hret : modifyManifestWithDockerfileOrigin cmds h M = some (h', M'))
    (hup : ∃ (i : Nat) (l : Descriptor),
      M'.Layers[i]? = some l ∧ classifiedAs h' l "upstream" = true) :
    ∃ dn c, commandAt cmds dn = some c ∧ isFROM c = true ∧
      dn = cmds.length - instructionsAfterLastFROM cmds ∧
      (∃ mn h1 ls1, loop1 cmds cmds.length M.Layers.length
        (h ++ [annotationsForNonUpstreamOwnership] ++ [annotationsForNonUpstreamOwnership])
        M.Layers = some (dn, mn, h1, ls1)) ∧
      ∀ (i : Nat) (l : Descriptor), M'.Layers[i]? = some l →
        classifiedAs h' l "upstream" = true → originatingText h' l = some c.Original := by
  have ht := after_le cmds
  obtain ⟨hcond, _, _⟩ := correlator_returned cmds h h' M M' hret
  have key : ∀ i l, M'.Layers[i]? = some l → classifiedAs h' l "upstream" = true →
      i < M.Layers.length ∧ instructionsAfterLastFROM cmds ≤ M.Layers.length - 1 - i ∧
        h'.read l.Annotations = some (allocated cmds (M.Layers.length - 1 - i)) := by
    intro i l hl hcl
    obtain ⟨_, _, hi, _, hread⟩ := returned_layer cmds h h' M M' hret i l hl
    refine ⟨hi, ?_, hread⟩
    by_contra hcon
    have hread' := hread
    rw [allocated, if_pos (by omega)] at hread'
    have := (classifiedAs_iff _ _ _ "upstream" _ hread').mp hcl
    exact absurd this (by decide)
  obtain ⟨i0, l0, hl0, hcl0⟩ := hup
  obtain ⟨hi0, hti0, _⟩ := key i0 l0 hl0 hcl0
  have htI : instructionsAfterLastFROM cmds < cmds.length := by omega
  obtain ⟨c, hc, hF⟩ := after_FROM cmds htI
  have hcAt : commandAt cmds (cmds.length - instructionsAfterLastFROM cmds) = some c := by
    obtain ⟨d, hd⟩ : ∃ d, cmds.length - instructionsAfterLastFROM cmds = d + 1 :=
      ⟨cmds.length - instructionsAfterLastFROM cmds - 1, by omega⟩
    rw [hd, commandAt]
    have : d = cmds.length - 1 - instructionsAfterLastFROM cmds := by omega
    rw [this]; exact hc
  refine ⟨_, c, hcAt, hF, rfl, loop1_cursor cmds _ M.Layers (by omega), ?_⟩
  intro i l hl hcl
  obtain ⟨_, hti, hread⟩ := key i l hl hcl
  rw [allocated_upstream cmds _ c hti hc] at hread
  exact originatingText_eq _ _ _ _ hread

/-- C4, at three layers and the instructions FROM base, RUN a, COPY b: the
bottom layer is upstream. -/
theorem C4_upstream_text_witness :
    ∃ dn c, commandAt exampleCommands dn = some c ∧ isFROM c = true ∧
      dn = exampleCommands.length - instructionsAfterLastFROM exampleCommands ∧
      (∃ mn h1 ls1, loop1 exampleCommands exampleCommands.length threeLayers.Layers.length
        ([] ++ [annotationsForNonUpstreamOwnership] ++ [annotationsForNonUpstreamOwnership])
        threeLayers.Layers = some (dn, mn, h1, ls1)) ∧
      ∀ (i : Nat) (l : Descriptor), (correlatedManifest 0 threeLayers).Layers[i]? = some l →
        classifiedAs (correlatedHeap exampleCommands [] 3) l "upstream" = true →
        originatingText (correlatedHeap exampleCommands [] 3) l = some c.Original :=
  C4_upstream_text exampleCommands [] (correlatedHeap exampleCommands [] 3) threeLayers
    (correlatedManifest 0 threeLayers) (by decide)
    ⟨0, { exampleLayer "a0" 100 with Annotations := some 4 }, by decide, by decide⟩

/-- C5: whenever the correlator returns, every layer of the returned manifest
holds a map allocated during the call, whose entries are exactly five: the four
ownership keys with one common value, upstream or non-upstream, and the
originating-instruction key. -/
theorem C5_one_classification_per_layer (cmds : List Command) (h h' : Heap) (M M' : Manifest)
    (hret : modifyManifestWithDockerfileOrigin cmds h M = some (h', M')) :
    M'.Layers.length = M.Layers.length ∧
    ∀ (i : Nat) (l : Descriptor), M'.Layers[i]? = some l →
      ∃ v text a, (v = "upstream" ∨ v = "non-upstream") ∧
        l.Annotations = some a ∧ h.length ≤ a ∧
        h'.read l.Annotations = some
          [ ("io.azurecr.lpm.v1.subject.authors", v),
            ("io.azurecr.lpm.v1.subject.url", v),
            ("io.azurecr.lpm.v1.subject.source", v),
            ("io.azurecr.lpm.v1.subject.vendor", v),
            ("io.azurecr.lpm.v1.subject.dockerfile.fullcommand", text) ] := by
  refine ⟨returned_length cmds h h' M M' hret, ?_⟩
  intro i l hl
  obtain ⟨l0, _, _, hl', hread⟩ := returned_layer cmds h h' M M' hret i l hl
  obtain ⟨v, text, hv, hal⟩ := allocated_cases cmds (M.Layers.length - 1 - i)
  rw [hal] at hread
  refine ⟨v, text, h.length + 2 + (M.Layers.length - 1 - i), hv, ?_, by omega, hread⟩
  rw [hl']

/-- C5, at three layers and the instructions FROM base, RUN a, COPY b. -/
theorem C5_one_classification_per_layer_witness :
    (correlatedManifest 0 threeLayers).Layers.length = threeLayers.Layers.length ∧
    ∀ (i : Nat) (l : Descriptor), (correlatedManifest 0 threeLayers).Layers[i]? = some l →
      ∃ v text a, (v = "upstream" ∨ v = "non-upstream") ∧
        l.Annotations = some a ∧ ([] : Heap).length ≤ a ∧
        (correlatedHeap exampleCommands [] 3).read l.Annotations = some
          [ ("io.azurecr.lpm.v1.subject.authors", v),
            ("io.azurecr.lpm.v1.subject.url", v),
            ("io.azurecr.lpm.v1.subject.source", v),
            ("io.azurecr.lpm.v1.subject.vendor", v),
            ("io.azurecr.lpm.v1.subject.dockerfile.fullcommand", text) ] :=
  C5_one_classification_per_layer exampleCommands [] (correlatedHeap exampleCommands [] 3)
    threeLayers (correlatedManifest 0 threeLayers) (by decide)

theorem correlated_read_manifest (cmds : List Command) (h : Heap) (n : Nat) :
    (correlatedHeap cmds h n).read (some h.length) = some annotationsForNonUpstreamOwnership := by
  rw [correlatedHeap, List.append_assoc, Heap.read, List.getElem?_append_right (Nat.le_refl _)]
  simp

theorem correlated_read_config (cmds : List Command) (h : Heap) (n : Nat) :
    (correlatedHeap cmds h n).read (some (h.length + 1))
      = some annotationsForNonUpstreamOwnership := by
  rw [correlatedHeap, List.append_assoc, Heap.read, List.getElem?_append_right (by omega)]
  simp

theorem withoutAnnotations_correlated (a : Nat) (M : Manifest) :
    withoutAnnotations (correlatedManifest a M) = withoutAnnotations M := by
  have : (M.Layers.mapIdx (fun i l =>
      ({ l with Annotations := some (a + 2 + (M.Layers.length - 1 - i)) } : Descriptor))).map
        (fun l => ({ l with Annotations := none } : Descriptor))
      = M.Layers.map (fun l => { l with Annotations := none }) := by
    apply List.ext_getElem?
    intro i
    simp only [List.getElem?_map, List.getElem?_mapIdx]
    cases M.Layers[i]? <;> rfl
  simp only [withoutAnnotations, correlatedManifest, this]

/-- C8: whenever the correlator returns, the maps of the returned manifest and
of its config descriptor hold exactly the four ownership entries with the value
non-upstream, and everything of the manifest but the annotation maps (schema
version, media types, digests, sizes, the layers and their order) is as it was
on input. -/
theorem C8_manifest_and_config_reset (cmds : List Command) (h h' : Heap) (M M' : Manifest)
    (hret : modifyManifestWithDockerfileOrigin cmds h M = some (h', M')) :
    h'.read M'.Annotations = some
        [ ("io.azurecr.lpm.v1.subject.authors", "non-upstream"),
          ("io.azurecr.lpm.v1.subject.url", "non-upstream"),
          ("io.azurecr.lpm.v1.subject.source", "non-upstream"),
          ("io.azurecr.lpm.v1.subject.vendor", "non-upstream") ] ∧
      h'.read M'.Config.Annotations = some
        [ ("io.azurecr.lpm.v1.subject.authors", "non-upstream"),
          ("io.azurecr.lpm.v1.subject.url", "non-upstream"),
          ("io.azurecr.lpm.v1.subject.source", "non-upstream"),
          ("io.azurecr.lpm.v1.subject.vendor", "non-upstream") ] ∧
      withoutAnnotations M' = withoutAnnotations M := by
  obtain ⟨_, hh, hM⟩ := correlator_returned cmds h h' M M' hret
  subst hh hM
  exact ⟨correlated_read_manifest cmds h _, correlated_read_config cmds h _,
    withoutAnnotations_correlated _ M⟩

/-- C8, at two layers that are both classified upstream (the one instruction
is a FROM), on a manifest that came with annotation maps. -/
theorem C8_manifest_and_config_reset_witness :
    modifyManifestWithDockerfileOrigin [{ Cmd := "from", Original := "from base" }] exampleHeap
        annotatedTwoLayers
      = some (correlatedHeap [{ Cmd := "from", Original := "from base" }] exampleHeap 2,
          correlatedManifest 2 annotatedTwoLayers) ∧
    ((correlatedHeap [{ Cmd := "from", Original := "from base" }] exampleHeap 2).read
        (correlatedManifest 2 annotatedTwoLayers).Annotations = some
        [ ("io.azurecr.lpm.v1.subject.authors", "non-upstream"),
          ("io.azurecr.lpm.v1.subject.url", "non-upstream"),
          ("io.azurecr.lpm.v1.subject.source", "non-upstream"),
          ("io.azurecr.lpm.v1.subject.vendor", "non-upstream") ] ∧
      (correlatedHeap [{ Cmd := "from", Original := "from base" }] exampleHeap 2).read
        (correlatedManifest 2 annotatedTwoLayers).Config.Annotations = some
        [ ("io.azurecr.lpm.v1.subject.authors", "non-upstream"),
          ("io.azurecr.lpm.v1.subject.url", "non-upstream"),
          ("io.azurecr.lpm.v1.subject.source", "non-upstream"),
          ("io.azurecr.lpm.v1.subject.vendor", "non-upstream") ] ∧
      withoutAnnotations (correlatedManifest 2 annotatedTwoLayers)
        = withoutAnnotations annotatedTwoLayers) ∧
    (correlatedManifest 2 annotatedTwoLayers).Layers.map
        (fun l => classifiedAs
          (correlatedHeap [{ Cmd := "from", Original := "from base" }] exampleHeap 2) l "upstream")
      = [true, true] :=
  ⟨by decide,
    C8_manifest_and_config_reset [{ Cmd := "from", Original := "from base" }] exampleHeap _
      annotatedTwoLayers _ (by decide),
    by decide⟩

/-! ## The content of a returned manifest -/

theorem content_correlated (cmds : List Command) (h : Heap) (M : Manifest) :
    manifestContent (correlatedHeap cmds h M.Layers.length) (correlatedManifest h.length M)
      = correlatedContent cmds M := by
  have hl : (correlatedManifest h.length M).Layers.map
        (descriptorContent (correlatedHeap cmds h M.Layers.length))
      = M.Layers.mapIdx (fun i l =>
        ({ MediaType := l.MediaType, Size := l.Size, Digest := l.Digest,
           Annotations := some (allocated cmds (M.Layers.length - 1 - i)) } : DescriptorContent)) := by
    apply List.ext_getElem?
    intro i
    simp only [correlatedManifest, List.getElem?_map, List.getElem?_mapIdx]
    cases hi : M.Layers[i]? with
    | none => rfl
    | some l =>
      have hlt := getElem?_lt _ _ _ hi
      simp only [Option.map, descriptorContent]
      rw [correlated_read cmds h M.Layers.length _ (by omega)]
  rw [manifestContent, hl, correlatedContent, descriptorContent]
  simp only [correlatedManifest, correlated_read_manifest, correlated_read_config]

theorem correlatedContent_withoutAnnotations (cmds : List Command) (M : Manifest) :
    correlatedContent cmds (withoutAnnotations M) = correlatedContent cmds M := by
  have hl : (withoutAnnotations M).Layers.mapIdx (fun i l =>
        ({ MediaType := l.MediaType, Size := l.Size, Digest := l.Digest,
           Annotations := some (allocated cmds ((withoutAnnotations M).Layers.length - 1 - i)) }
          : DescriptorContent))
      = M.Layers.mapIdx (fun i l =>
        ({ MediaType := l.MediaType, Size := l.Size, Digest := l.Digest,
           Annotations := some (allocated cmds (M.Layers.length - 1 - i)) } : DescriptorContent)) := by
    apply List.ext_getElem?
    intro i
    simp only [withoutAnnotations, List.getElem?_map, List.getElem?_mapIdx, List.length_map]
    cases M.Layers[i]? <;> rfl
  rw [correlatedContent, hl]
  rfl

theorem correlator_content (cmds : List Command) (h h' : Heap) (M M' : Manifest)
    (hret : modifyManifestWithDockerfileOrigin cmds h M = some (h', M')) :
    manifestContent h' M' = correlatedContent cmds (withoutAnnotations M) := by
  obtain ⟨_, hh, hM⟩ := correlator_returned cmds h h' M M' hret
  rw [hh, hM, content_correlated, correlatedContent_withoutAnnotations]

theorem correlator_returns_same (cmds : List Command) (h h' h₂ : Heap) (M M' M₂ : Manifest)
    (hret : modifyManifestWithDockerfileOrigin cmds h M = some (h', M'))
    (hsame : withoutAnnotations M₂ = withoutAnnotations M) :
    ∃ h₂' M₂', modifyManifestWithDockerfileOrigin cmds h₂ M₂ = some (h₂', M₂') ∧
      manifestContent h₂' M₂' = manifestContent h' M' := by
  obtain ⟨hcond, _, _⟩ := correlator_returned cmds h h' M M' hret
  have hlen : M₂.Layers.length = M.Layers.length := by
    have := congrArg (fun m => m.Layers.length) hsame
    simpa [withoutAnnotations] using this
  have hret₂ := correlator_returns cmds h₂ M₂ (by rw [hlen]; exact hcond)
  refine ⟨_, _, hret₂, ?_⟩
  rw [correlator_content cmds h₂ _ M₂ _ hret₂, correlator_content cmds h h' M M' hret, hsame]

/-! ## The reference layer descriptors -/

theorem referenceLayer_eq (F : List Nat → String) (h : Heap) (l : Descriptor) (a : Nat)
    (m : AnnMap) (hl : l.Annotations = some a) (hm : h[a]? = some m) :
    referenceLayer F h l = some (h.set a (withIdentity m l), referenceOf F l) := by
  have ha : a < h.length := getElem?_lt _ _ _ hm
  simp [referenceLayer, Heap.write, hl, hm, ha, withIdentity, referenceOf, List.set_set]

theorem referenceLayers_spec (F : List Nat → String) :
    ∀ (ls : List Descriptor) (h : Heap) (acc : List RefDescriptor),
      (∀ l, l ∈ ls → ∃ a, l.Annotations = some a ∧ a < h.length) →
      (ls.map (fun l => l.Annotations)).Nodup →
      ∃ h', referenceLayers F h ls acc = some (h', acc ++ ls.map (referenceOf F)) ∧
        h'.length = h.length ∧
        (∀ a, some a ∉ ls.map (fun l => l.Annotations) → h'[a]? = h[a]?) ∧
        (∀ l, l ∈ ls → ∀ a, l.Annotations = some a →
          h'[a]? = (h[a]?).map (fun m => withIdentity m l)) := by
  intro ls
  induction ls with
  | nil =>
    intro h acc _ _
    exact ⟨h, by simp [referenceLayers], rfl, fun _ _ => rfl, fun l hl => by cases hl⟩
  | cons l rest ih =>
    intro h acc hrange hnodup
    obtain ⟨a, hla, halt⟩ := hrange l (List.mem_cons_self _ _)
    obtain ⟨m, hm⟩ : ∃ m, h[a]? = some m := ⟨h[a], List.getElem?_eq_getElem halt⟩
    rw [List.map_cons, List.nodup_cons] at hnodup
    obtain ⟨hnotin, hnodup'⟩ := hnodup
    obtain ⟨h', heq, hlen, hother, hmine⟩ :=
      ih (h.set a (withIdentity m l)) (acc ++ [referenceOf F l])
        (by
          intro l' hl'
          obtain ⟨a', h1, h2⟩ := hrange l' (List.mem_cons_of_mem _ hl')
          exact ⟨a', h1, by simpa using h2⟩)
        hnodup'
    refine ⟨h', ?_, by simpa using hlen, ?_, ?_⟩
    · simp [referenceLayers, referenceLayer_eq F h l a m hla hm, heq]
    · intro a' ha'
      have hne : a ≠ a' := by
        intro hcon
        apply ha'
        rw [List.map_cons, ← hcon, ← hla]
        exact List.mem_cons_self _ _
      have hrest : some a' ∉ rest.map (fun l => l.Annotations) := by
        intro hcon
        apply ha'
        rw [List.map_cons]
        exact List.mem_cons_of_mem _ hcon
      rw [hother a' hrest, List.getElem?_set_ne hne]
    · intro l' hl' a' hla'
      rcases List.mem_cons.mp hl' with heq' | hin
      · subst heq'
        rw [hla] at hla'
        cases hla'
        rw [hother a (by rw [← hla]; exact hnotin), List.getElem?_set_self halt, hm]
        rfl
      · have hne : a ≠ a' := by
          intro hcon
          apply hnotin
          rw [hla, hcon, ← hla']
          exact List.mem_map_of_mem _ hin
        rw [hmine l' hin a' hla', List.getElem?_set_ne hne]

theorem correlated_refs_nodup (a : Nat) (M : Manifest) :
    ((correlatedManifest a M).Layers.map (fun l => l.Annotations)).Nodup := by
  rw [List.nodup_iff_getElem?_ne_getElem?]
  intro i j hij hj
  simp only [correlatedManifest, List.length_map, List.length_mapIdx] at hj
  simp only [correlatedManifest, List.getElem?_map, List.getElem?_mapIdx]
  rw [List.getElem?_eq_getElem (by omega : i < M.Layers.length), List.getElem?_eq_getElem hj]
  simp only [Option.map, ne_eq, Option.some.injEq]
  omega

theorem correlatedHeap_length (cmds : List Command) (h : Heap) (n : Nat) :
    (correlatedHeap cmds h n).length = h.length + 2 + n := by
  simp [correlatedHeap]
  omega

theorem correlated_refs_range (cmds : List Command) (h : Heap) (M : Manifest) :
    ∀ l, l ∈ (correlatedManifest h.length M).Layers →
      ∃ a, l.Annotations = some a ∧ a < (correlatedHeap cmds h M.Layers.length).length := by
  intro l hl
  obtain ⟨i, hi⟩ := List.getElem?_of_mem hl
  simp only [correlatedManifest, List.getElem?_mapIdx] at hi
  cases hl0 : M.Layers[i]? with
  | none => rw [hl0] at hi; cases hi
  | some l0 =>
    have hlt := getElem?_lt _ _ _ hl0
    rw [hl0] at hi
    simp only [Option.map] at hi
    cases hi
    exact ⟨_, rfl, by rw [correlatedHeap_length]; omega⟩

theorem write_eq (h : Heap) (r : Nat) (m : AnnMap) (k v : String) (hm : h[r]? = some m) :
    Heap.write h (some r) k v = some (h.set r (m.set k v)) := by
  simp [Heap.write, hm]

theorem analyzeBuild_eq (F : List Nat → String) (cmds : List Command) (h h2 : Heap)
    (M : Manifest) (rl : List RefDescriptor) (m0 m1 : AnnMap)
    (hret : modifyManifestWithDockerfileOrigin cmds h M
      = some (correlatedHeap cmds h M.Layers.length, correlatedManifest h.length M))
    (hrl : referenceLayers F (correlatedHeap cmds h M.Layers.length)
      (correlatedManifest h.length M).Layers [] = some (h2, rl))
    (hm0 : h2[h.length]? = some m0) (hm1 : h2[h.length + 1]? = some m1) :
    analyzeBuild F cmds h M = some
      { heap := (h2.set h.length (m0.set annotationKeyForSubjectMediaType M.MediaType)).set
          (h.length + 1) (withIdentity m1 M.Config)
        subjectManifest := correlatedManifest h.length M
        referenceLayerDescs := rl
        referenceManifestAnnotations := some h.length
        referenceConfigAnnotations := some (h.length + 1) } := by
  have h0lt : h.length < h2.length := getElem?_lt _ _ _ hm0
  have h1lt : h.length + 1 < h2.length := getElem?_lt _ _ _ hm1
  have e1 := write_eq h2 h.length m0 annotationKeyForSubjectMediaType M.MediaType hm0
  have hm1' : (h2.set h.length (m0.set annotationKeyForSubjectMediaType M.MediaType))[h.length + 1]?
      = some m1 := by
    rw [List.getElem?_set_ne (by omega)]; exact hm1
  have e2 := write_eq _ (h.length + 1) m1 annotationKeyForSubjectMediaType M.Config.MediaType hm1'
  have e3 := write_eq
    ((h2.set h.length (m0.set annotationKeyForSubjectMediaType M.MediaType)).set (h.length + 1)
      (m1.set annotationKeyForSubjectMediaType M.Config.MediaType))
    (h.length + 1) (m1.set annotationKeyForSubjectMediaType M.Config.MediaType)
    annotationKeyForSubjectDigest M.Config.Digest.String
    (by rw [List.getElem?_set_self (by simpa using h1lt)])
  rw [List.set_set] at e3
  have e4 := write_eq
    ((h2.set h.length (m0.set annotationKeyForSubjectMediaType M.MediaType)).set (h.length + 1)
      ((m1.set annotationKeyForSubjectMediaType M.Config.MediaType).set
        annotationKeyForSubjectDigest M.Config.Digest.String))
    (h.length + 1)
    ((m1.set annotationKeyForSubjectMediaType M.Config.MediaType).set
      annotationKeyForSubjectDigest M.Config.Digest.String)
    annotationKeyForSubjectSize (fmt_Sprint M.Config.Size)
    (by rw [List.getElem?_set_self (by simpa using h1lt)])
  rw [List.set_set] at e4
  have hA : (correlatedManifest h.length M).Annotations = some h.length := rfl
  have hC : (correlatedManifest h.length M).Config.Annotations = some (h.length + 1) := rfl
  have hMT : (correlatedManifest h.length M).MediaType = M.MediaType := rfl
  have hCMT : (correlatedManifest h.length M).Config.MediaType = M.Config.MediaType := rfl
  have hCD : (correlatedManifest h.length M).Config.Digest = M.Config.Digest := rfl
  have hCS : (correlatedManifest h.length M).Config.Size = M.Config.Size := rfl
  simp only [analyzeBuild, hret, hrl, bind, Option.bind, pure, hA, hC, hMT, hCMT, hCD, hCS,
    e1, e2, e3, e4, withIdentity]

theorem withIdentity_ownership (v text : String) (l : Descriptor) :
    withIdentity (ownershipAnnotations v text) l
      = ownershipAnnotations v text ++
        [ ("io.azurecr.lpm.v1.subject.mediaType", l.MediaType),
          ("io.azurecr.lpm.v1.subject.digest", l.Digest.String),
          ("io.azurecr.lpm.v1.subject.size", fmt_Sprint l.Size) ] := by
  simp [withIdentity, ownershipAnnotations, AnnMap.set, annotationKeyForSubjectMediaType,
    annotationKeyForSubjectDigest, annotationKeyForSubjectSize]

theorem analyzeBuild_returns (F : List Nat → String) (cmds : List Command) (h h' : Heap)
    (M M' : Manifest) (hret : modifyManifestWithDockerfileOrigin cmds h M = some (h', M')) :
    ∃ (h2 : Heap) (m0 m1 : AnnMap),
      analyzeBuild F cmds h M = some
        { heap := (h2.set h.length (m0.set annotationKeyForSubjectMediaType M.MediaType)).set
            (h.length + 1) (withIdentity m1 M.Config)
          subjectManifest := M'
          referenceLayerDescs := M'.Layers.map (referenceOf F)
          referenceManifestAnnotations := some h.length
          referenceConfigAnnotations := some (h.length + 1) } ∧
      h'[h.length]? = some m0 ∧ h'[h.length + 1]? = some m1 ∧
      h2.length = h'.length ∧
      (∀ a, some a ∉ M'.Layers.map (fun l => l.Annotations) → h2[a]? = h'[a]?) ∧
      (∀ l, l ∈ M'.Layers → ∀ a, l.Annotations = some a →
        h2[a]? = (h'[a]?).map (fun m => withIdentity m l)) := by
  obtain ⟨_, hh, hM⟩ := correlator_returned cmds h h' M M' hret
  subst hh hM
  obtain ⟨h2, hrl, hlen2, hother, hmine⟩ :=
    referenceLayers_spec F (correlatedManifest h.length M).Layers
      (correlatedHeap cmds h M.Layers.length) [] (correlated_refs_range cmds h M)
      (correlated_refs_nodup h.length M)
  have hlen := correlatedHeap_length cmds h M.Layers.length
  have hnot : ∀ a, a < h.length + 2 →
      some a ∉ (correlatedManifest h.length M).Layers.map (fun l => l.Annotations) := by
    intro a ha hmem
    obtain ⟨l, hl, hla⟩ := List.mem_map.mp hmem
    obtain ⟨i, hi⟩ := List.getElem?_of_mem hl
    obtain ⟨_, _, _, hl', _⟩ := returned_layer cmds h _ M _ hret i l hi
    rw [hl'] at hla
    simp only [Option.some.injEq] at hla
    omega
  have hr0 := correlated_read_manifest cmds h M.Layers.length
  have hr1 := correlated_read_config cmds h M.Layers.length
  simp only [Heap.read] at hr0 hr1
  have hm0 : h2[h.length]? = some annotationsForNonUpstreamOwnership := by
    rw [hother _ (hnot _ (by omega))]; exact hr0
  have hm1 : h2[h.length + 1]? = some annotationsForNonUpstreamOwnership := by
    rw [hother _ (hnot _ (by omega))]; exact hr1
  refine ⟨h2, _, _, ?_, hr0, hr1, hlen2, hother, hmine⟩
  have := analyzeBuild_eq F cmds h h2 M _ _ _ hret hrl hm0 hm1
  simpa using this

/-- C6: when the correlator returns, lines 125-189 of analyze run through, and
the reference layer list has one descriptor per subject layer, in order: the
layer media type constant, the digest of the empty byte slice, size 0, and an
annotation map that holds, when the reference manifest is assembled, the five
annotations the correlator gave the layer followed by the subject layer's own
media type, digest string and decimal size under the three subject keys. -/
theorem C6_reference_layer_list (F : List Nat → String) (cmds : List Command) (h h' : Heap)
    (M M' : Manifest) (hret : modifyManifestWithDockerfileOrigin cmds h M = some (h', M')) :
    ∃ b, analyzeBuild F cmds h M = some b ∧
      b.referenceLayerDescs.length = M.Layers.length ∧
      ∀ (i : Nat) (l : Descriptor), M.Layers[i]? = some l →
        ∃ l' v text r, M'.Layers[i]? = some l' ∧
          h'.read l'.Annotations = some (ownershipAnnotations v text) ∧
          b.referenceLayerDescs[i]? = some
            { MediaType := "application/io.azurecr.image.rootfs.diff.tar.gzip.lpm.v1+json"
              Digest := F []
              Size := 0
              Annotations := r } ∧
          b.heap.read r = some (ownershipAnnotations v text ++
            [ ("io.azurecr.lpm.v1.subject.mediaType", l.MediaType),
              ("io.azurecr.lpm.v1.subject.digest", l.Digest.String),
              ("io.azurecr.lpm.v1.subject.size", toString l.Size) ]) := by
  obtain ⟨h2, m0, m1, hb, _, _, hlen2, _, hmine⟩ := analyzeBuild_returns F cmds h h' M M' hret
  have hlen := returned_length cmds h h' M M' hret
  refine ⟨_, hb, by simpa using hlen, ?_⟩
  intro i l hl
  have hi := getElem?_lt _ _ _ hl
  obtain ⟨l', hl'⟩ : ∃ l', M'.Layers[i]? = some l' :=
    ⟨M'.Layers[i], List.getElem?_eq_getElem (by omega)⟩
  obtain ⟨l0, hl0, _, hl'eq, hread⟩ := returned_layer cmds h h' M M' hret i l' hl'
  rw [hl] at hl0
  cases hl0
  obtain ⟨v, text, _, hal⟩ := allocated_cases cmds (M.Layers.length - 1 - i)
  rw [hal] at hread
  refine ⟨l', v, text, l'.Annotations, hl', hread, ?_, ?_⟩
  · simp only [List.getElem?_map, hl', Option.map, referenceOf, mediaTypeForLayerLpm]
  · have hmem : l' ∈ M'.Layers := List.getElem?_mem hl'
    have hann : l'.Annotations = some (h.length + 2 + (M.Layers.length - 1 - i)) := by
      rw [hl'eq]
    have h2r := hmine l' hmem _ hann
    rw [hann] at hread ⊢
    simp only [Heap.read] at hread ⊢
    rw [hread] at h2r
    rw [List.getElem?_set_ne (by omega), List.getElem?_set_ne (by omega), h2r]
    simp only [Option.map]
    rw [withIdentity_ownership, hl'eq]
    rfl

/-- C6, at three layers and the instructions FROM base, RUN a, COPY b. -/
theorem C6_reference_layer_list_witness :
    modifyManifestWithDockerfileOrigin exampleCommands [] threeLayers
      = some (correlatedHeap exampleCommands [] 3, correlatedManifest 0 threeLayers) ∧
    ∃ b, analyzeBuild exampleFromBytes exampleCommands [] threeLayers = some b ∧
      b.referenceLayerDescs.length = threeLayers.Layers.length ∧
      ∀ (i : Nat) (l : Descriptor), threeLayers.Layers[i]? = some l →
        ∃ l' v text r, (correlatedManifest 0 threeLayers).Layers[i]? = some l' ∧
          (correlatedHeap exampleCommands [] 3).read l'.Annotations
            = some (ownershipAnnotations v text) ∧
          b.referenceLayerDescs[i]? = some
            { MediaType := "application/io.azurecr.image.rootfs.diff.tar.gzip.lpm.v1+json"
              Digest := exampleFromBytes []
              Size := 0
              Annotations := r } ∧
          b.heap.read r = some (ownershipAnnotations v text ++
            [ ("io.azurecr.lpm.v1.subject.mediaType", l.MediaType),
              ("io.azurecr.lpm.v1.subject.digest", l.Digest.String),
              ("io.azurecr.lpm.v1.subject.size", toString l.Size) ]) :=
  ⟨by decide,
    C6_reference_layer_list exampleFromBytes exampleCommands [] _ threeLayers _ (by decide)⟩

/-- C7: at three layers and the instructions FROM base, RUN a, COPY b, the
reference descriptor of the top layer holds the very map reference of the
subject descriptor, and once analyze has built it that map of the subject
descriptor has eight entries where the correlator had left five; the map of
the subject config descriptor has gone from four entries to seven. -/
theorem C7_subject_maps_mutated_in_place :
    ∃ h' M' b,
      modifyManifestWithDockerfileOrigin exampleCommands [] threeLayers = some (h', M') ∧
      analyzeBuild exampleFromBytes exampleCommands [] threeLayers = some b ∧
      b.subjectManifest = M' ∧
      (M'.Layers.map (fun l => l.Annotations))[2]? = some (some 2) ∧
      (b.referenceLayerDescs.map (fun r => r.Annotations))[2]? = some (some 2) ∧
      h'.read (some 2) = some
        [ ("io.azurecr.lpm.v1.subject.authors", "non-upstream"),
          ("io.azurecr.lpm.v1.subject.url", "non-upstream"),
          ("io.azurecr.lpm.v1.subject.source", "non-upstream"),
          ("io.azurecr.lpm.v1.subject.vendor", "non-upstream"),
          ("io.azurecr.lpm.v1.subject.dockerfile.fullcommand", "COPY b") ] ∧
      b.heap.read (some 2) = some
        [ ("io.azurecr.lpm.v1.subject.authors", "non-upstream"),
          ("io.azurecr.lpm.v1.subject.url", "non-upstream"),
          ("io.azurecr.lpm.v1.subject.source", "non-upstream"),
          ("io.azurecr.lpm.v1.subject.vendor", "non-upstream"),
          ("io.azurecr.lpm.v1.subject.dockerfile.fullcommand", "COPY b"),
          ("io.azurecr.lpm.v1.subject.mediaType",
            "application/vnd.docker.image.rootfs.diff.tar.gzip"),
          ("io.azurecr.lpm.v1.subject.digest", "sha256:a2"),
          ("io.azurecr.lpm.v1.subject.size", "300") ] ∧
      M'.Config.Annotations = some 1 ∧
      b.referenceConfigAnnotations = some 1 ∧
      (h'.read (some 1)).map List.length = some 4 ∧
      (b.heap.read (some 1)).map List.length = some 7 :=
  ⟨_, _, _, rfl, rfl, rfl, rfl, rfl, rfl, rfl, rfl, rfl, rfl, rfl⟩

/-! ## Idempotence of the correlator -/

theorem withIdentity_congr (m : AnnMap) (l l' : Descriptor) (h1 : l'.MediaType = l.MediaType)
    (h2 : l'.Digest = l.Digest) (h3 : l'.Size = l.Size) :
    withIdentity m l' = withIdentity m l := by
  rw [withIdentity, withIdentity, h1, h2, h3]

theorem built_content (F : List Nat → String) (cmds : List Command) (h h' : Heap)
    (M M' : Manifest) (hret : modifyManifestWithDockerfileOrigin cmds h M = some (h', M')) :
    ∃ b, analyzeBuild F cmds h M = some b ∧ builtContent b = expectedBuilt F cmds M := by
  obtain ⟨h2, m0, m1, hb, hm0, hm1, hlen2, hother, hmine⟩ :=
    analyzeBuild_returns F cmds h h' M M' hret
  obtain ⟨_, hh, hM⟩ := correlator_returned cmds h h' M M' hret
  have hr0 := correlated_read_manifest cmds h M.Layers.length
  have hr1 := correlated_read_config cmds h M.Layers.length
  rw [← hh] at hr0 hr1
  simp only [Heap.read] at hr0 hr1
  rw [hr0] at hm0
  rw [hr1] at hm1
  cases hm0
  cases hm1
  have hlen' : h'.length = h.length + 2 + M.Layers.length := by
    rw [hh]; exact correlatedHeap_length cmds h M.Layers.length
  refine ⟨_, hb, ?_⟩
  have hlayers : (M'.Layers.map (referenceOf F)).map (fun r =>
        ({ MediaType := r.MediaType, Digest := r.Digest, Size := r.Size,
           Annotations := Heap.read
            ((h2.set h.length (annotationsForNonUpstreamOwnership.set
              annotationKeyForSubjectMediaType M.MediaType)).set (h.length + 1)
              (withIdentity annotationsForNonUpstreamOwnership M.Config)) r.Annotations }
          : RefDescriptorContent))
      = M.Layers.mapIdx (fun i l =>
        ({ MediaType := mediaTypeForLayerLpm, Digest := F [], Size := 0,
           Annotations := some (withIdentity (allocated cmds (M.Layers.length - 1 - i)) l) }
          : RefDescriptorContent)) := by
    apply List.ext_getElem?
    intro i
    simp only [List.getElem?_map, List.getElem?_mapIdx]
    cases hl' : M'.Layers[i]? with
    | none =>
      have : M.Layers[i]? = none := by
        rw [List.getElem?_eq_none_iff] at hl' ⊢
        rw [returned_length cmds h h' M M' hret] at hl'
        exact hl'
      rw [this]; rfl
    | some l' =>
      obtain ⟨l, hl, hi, hl'eq, hread⟩ := returned_layer cmds h h' M M' hret i l' hl'
      have hann : l'.Annotations = some (h.length + 2 + (M.Layers.length - 1 - i)) := by
        rw [hl'eq]
      have h2r := hmine l' (List.getElem?_mem hl') _ hann
      rw [hann] at hread
      simp only [Heap.read] at hread
      rw [hread] at h2r
      rw [hl]
      simp only [Option.map, referenceOf, hann, Heap.read]
      rw [List.getElem?_set_ne (by omega), List.getElem?_set_ne (by omega), h2r]
      simp only [Option.map]
      rw [withIdentity_congr _ l l' (by rw [hl'eq]) (by rw [hl'eq]) (by rw [hl'eq])]
  have hsv : M'.SchemaVersion = M.SchemaVersion := by rw [hM]; rfl
  have hA : ((h2.set h.length (annotationsForNonUpstreamOwnership.set
        annotationKeyForSubjectMediaType M.MediaType)).set (h.length + 1)
        (withIdentity annotationsForNonUpstreamOwnership M.Config))[h.length]?
      = some (annotationsForNonUpstreamOwnership.set annotationKeyForSubjectMediaType
          M.MediaType) := by
    rw [List.getElem?_set_ne (by omega), List.getElem?_set_self (by omega)]
  have hC : ((h2.set h.length (annotationsForNonUpstreamOwnership.set
        annotationKeyForSubjectMediaType M.MediaType)).set (h.length + 1)
        (withIdentity annotationsForNonUpstreamOwnership M.Config))[h.length + 1]?
      = some (withIdentity annotationsForNonUpstreamOwnership M.Config) := by
    rw [List.getElem?_set_self (by rw [List.length_set]; omega)]
  simp only [builtContent, expectedBuilt]
  rw [hlayers, hsv]
  simp only [Heap.read, hA, hC]

theorem expectedBuilt_withoutAnnotations (F : List Nat → String) (cmds : List Command)
    (M : Manifest) : expectedBuilt F cmds (withoutAnnotations M) = expectedBuilt F cmds M := by
  have hl : (withoutAnnotations M).Layers.mapIdx (fun i l =>
        ({ MediaType := mediaTypeForLayerLpm, Digest := F [], Size := 0,
           Annotations := some (withIdentity
            (allocated cmds ((withoutAnnotations M).Layers.length - 1 - i)) l) }
          : RefDescriptorContent))
      = M.Layers.mapIdx (fun i l =>
        ({ MediaType := mediaTypeForLayerLpm, Digest := F [], Size := 0,
           Annotations := some (withIdentity (allocated cmds (M.Layers.length - 1 - i)) l) }
          : RefDescriptorContent)) := by
    apply List.ext_getElem?
    intro i
    simp only [withoutAnnotations, List.getElem?_map, List.getElem?_mapIdx, List.length_map]
    cases M.Layers[i]? <;> rfl
  rw [expectedBuilt, hl]
  rfl

/-- C9: when the correlator returns a manifest on the instructions `cmds`,
running it again with `cmds` on that manifest returns too, and the manifest it
returns has the same content; more generally every run with `cmds` on a
manifest that differs from the first one in annotation maps only returns a
manifest of that same content; and what analyze assembles the reference
manifest from has the same content after the second run as after the first. -/
theorem C9_idempotent (cmds : List Command) (h h' : Heap) (M M' : Manifest)
    (hret : modifyManifestWithDockerfileOrigin cmds h M = some (h', M')) :
    (∃ h'' M'', modifyManifestWithDockerfileOrigin cmds h' M' = some (h'', M'') ∧
      manifestContent h'' M'' = manifestContent h' M') ∧
    (∀ (h₂ : Heap) (M₂ : Manifest), withoutAnnotations M₂ = withoutAnnotations M →
      ∃ h₂' M₂', modifyManifestWithDockerfileOrigin cmds h₂ M₂ = some (h₂', M₂') ∧
        manifestContent h₂' M₂' = manifestContent h' M') ∧
    (∀ F : List Nat → String, ∃ b b', analyzeBuild F cmds h M = some b ∧
      analyzeBuild F cmds h' M' = some b' ∧ builtContent b' = builtContent b) := by
  have hsame : withoutAnnotations M' = withoutAnnotations M := by
    obtain ⟨_, _, hM⟩ := correlator_returned cmds h h' M M' hret
    rw [hM, withoutAnnotations_correlated]
  refine ⟨correlator_returns_same cmds h h' h' M M' M' hret hsame,
    fun h₂ M₂ hsame₂ => correlator_returns_same cmds h h' h₂ M M' M₂ hret hsame₂, ?_⟩
  intro F
  obtain ⟨h'', M'', hret', _⟩ := correlator_returns_same cmds h h' h' M M' M' hret hsame
  obtain ⟨b, hb, hbc⟩ := built_content F cmds h h' M M' hret
  obtain ⟨b', hb', hbc'⟩ := built_content F cmds h' h'' M' M'' hret'
  refine ⟨b, b', hb, hb', ?_⟩
  rw [hbc, hbc', ← expectedBuilt_withoutAnnotations F cmds M', hsame,
    expectedBuilt_withoutAnnotations]

/-- C9, at three layers and the instructions FROM base, RUN a, COPY b. -/
theorem C9_idempotent_witness :
    modifyManifestWithDockerfileOrigin exampleCommands [] threeLayers
      = some (correlatedHeap exampleCommands [] 3, correlatedManifest 0 threeLayers) ∧
    ((∃ h'' M'', modifyManifestWithDockerfileOrigin exampleCommands
        (correlatedHeap exampleCommands [] 3) (correlatedManifest 0 threeLayers) = some (h'', M'') ∧
      manifestContent h'' M''
        = manifestContent (correlatedHeap exampleCommands [] 3) (correlatedManifest 0 threeLayers)) ∧
    (∀ (h₂ : Heap) (M₂ : Manifest), withoutAnnotations M₂ = withoutAnnotations threeLayers →
      ∃ h₂' M₂', modifyManifestWithDockerfileOrigin exampleCommands h₂ M₂ = some (h₂', M₂') ∧
        manifestContent h₂' M₂'
          = manifestContent (correlatedHeap exampleCommands [] 3)
              (correlatedManifest 0 threeLayers)) ∧
    (∀ F : List Nat → String, ∃ b b',
      analyzeBuild F exampleCommands [] threeLayers = some b ∧
      analyzeBuild F exampleCommands (correlatedHeap exampleCommands [] 3)
        (correlatedManifest 0 threeLayers) = some b' ∧ builtContent b' = builtContent b)) :=
  ⟨by decide, C9_idempotent exampleCommands [] _ threeLayers _ (by decide)⟩

/-! ## Annotation processing of config-annotate -/

theorem drop_takeWhile_length {α : Type} (p : α → Bool) (xs : List α) :
    xs.drop (xs.takeWhile p).length = xs.dropWhile p := by
  induction xs with
  | nil => rfl
  | cons x xs ih =>
    by_cases hx : p x = true
    · simp [List.takeWhile_cons, List.dropWhile_cons, hx, ih]
    · simp [List.takeWhile_cons, List.dropWhile_cons, hx]

theorem findSeparator_spec :
    ∀ (cs : List Char) (pos : Nat),
      (findSeparator cs pos = none ∧ ':' ∉ cs) ∨
      (∃ b e, findSeparator cs pos = some (b, e) ∧ ':' ∈ cs ∧ pos ≤ b ∧ b < e ∧
        cs.take (b - pos) = cs.takeWhile (fun c => c != ':') ∧
        cs.drop (e - pos)
          = ((cs.dropWhile (fun c => c != ':')).drop 1).dropWhile isReSpace) := by
  intro cs
  induction cs with
  | nil => intro pos; exact Or.inl ⟨rfl, List.not_mem_nil _⟩
  | cons c rest ih =>
    intro pos
    by_cases hc : c = ':'
    · subst hc
      refine Or.inr ⟨pos, pos + 1 + (rest.takeWhile isReSpace).length, ?_,
        List.mem_cons_self _ _, Nat.le_refl _, by omega, ?_, ?_⟩
      · simp [findSeparator]
      · simp
      · have : pos + 1 + (rest.takeWhile isReSpace).length - pos
            = (rest.takeWhile isReSpace).length + 1 := by omega
        rw [this]
        simp [drop_takeWhile_length]
    · rcases ih (pos + 1) with ⟨h1, h2⟩ | ⟨b, e, h1, h2, h3, h4, h5, h6⟩
      · refine Or.inl ⟨by simp [findSeparator, hc, h1], ?_⟩
        intro hmem
        rcases List.mem_cons.mp hmem with h | h
        · exact hc h.symm
        · exact h2 h
      · refine Or.inr ⟨b, e, by simp [findSeparator, hc, h1], List.mem_cons_of_mem _ h2,
          by omega, h4, ?_, ?_⟩
        · obtain ⟨k, hk⟩ : ∃ k, b - pos = k + 1 := ⟨b - pos - 1, by omega⟩
          have hk' : b - (pos + 1) = k := by omega
          rw [hk, List.take_succ_cons, ← hk', h5]
          simp [List.takeWhile_cons, hc]
        · obtain ⟨k, hk⟩ : ∃ k, e - pos = k + 1 := ⟨e - pos - 1, by omega⟩
          have hk' : e - (pos + 1) = k := by omega
          rw [hk, List.drop_succ_cons, ← hk', h6]
          simp [List.dropWhile_cons, hc]

theorem hasSeparator_iff (raw : String) : hasSeparator raw = true ↔ ':' ∈ raw.data := by
  simp [hasSeparator]

theorem reSplit2_eq (raw : String) :
    reSplit2 raw = if hasSeparator raw = true then [keyOf raw, valueOf raw] else [raw] := by
  rcases findSeparator_spec raw.data 0 with ⟨h1, h2⟩ | ⟨b, e, h1, h2, _, _, h5, h6⟩
  · rw [if_neg (by rw [hasSeparator_iff]; exact h2)]
    simp [reSplit2, h1]
  · simp only [Nat.sub_zero] at h5 h6
    rw [if_pos (by rw [hasSeparator_iff]; exact h2)]
    simp only [reSplit2, h1, keyOf, valueOf, h5, h6]

theorem processAnnotations_ok :
    ∀ (raws : List String) (m : AnnMap), (∀ r, r ∈ raws → hasSeparator r = true) →
      processAnnotations raws m
        = .ok (raws.foldl (fun acc r => acc.set (keyOf r) (valueOf r)) m) := by
  intro raws
  induction raws with
  | nil => intro m _; rfl
  | cons r rest ih =>
    intro m hall
    have hr := hall r (List.mem_cons_self _ _)
    simp only [processAnnotations, reSplit2_eq, hr, if_true, List.foldl_cons]
    exact ih _ (fun r' hr' => hall r' (List.mem_cons_of_mem _ hr'))

theorem processAnnotations_error :
    ∀ (pre : List String) (bad : String) (post : List String) (m : AnnMap),
      (∀ r, r ∈ pre → hasSeparator r = true) → hasSeparator bad = false →
      processAnnotations (pre ++ bad :: post) m = .error ("invalid annotation: " ++ bad) := by
  intro pre
  induction pre with
  | nil =>
    intro bad post m _ hbad
    simp [processAnnotations, reSplit2_eq, hbad]
  | cons r rest ih =>
    intro bad post m hall hbad
    have hr := hall r (List.mem_cons_self _ _)
    simp only [List.cons_append, processAnnotations, reSplit2_eq, hr, if_true]
    exact ih bad post _ (fun r' hr' => hall r' (List.mem_cons_of_mem _ hr')) hbad

theorem get?_set (m : AnnMap) (k v k' : String) :
    (m.set k v).get? k' = if k = k' then some v else m.get? k' := by
  induction m with
  | nil => simp [AnnMap.set, AnnMap.get?]
  | cons p rest ih =>
    obtain ⟨k0, v0⟩ := p
    by_cases h0 : k0 = k
    · subst h0
      by_cases h1 : k0 = k'
      · simp [AnnMap.set, AnnMap.get?, h1]
      · simp [AnnMap.set, AnnMap.get?, h1]
    · by_cases h1 : k0 = k'
      · subst h1
        have : ¬ k = k0 := fun hcon => h0 hcon.symm
        simp [AnnMap.set, AnnMap.get?, h0, this]
      · simp [AnnMap.set, AnnMap.get?, h0, h1, ih]

theorem foldl_get? :
    ∀ (raws : List String) (m : AnnMap) (k : String),
      (raws.foldl (fun acc r => acc.set (keyOf r) (valueOf r)) m).get? k
        = match raws.reverse.find? (fun r => keyOf r == k) with
          | some r => some (valueOf r)
          | none => m.get? k := by
  intro raws
  induction raws with
  | nil => intro m k; rfl
  | cons r rest ih =>
    intro m k
    rw [List.foldl_cons, ih, List.reverse_cons, List.find?_append]
    cases hfind : rest.reverse.find? (fun r => keyOf r == k) with
    | some r' => rfl
    | none =>
      by_cases hk : keyOf r = k
      · simp [get?_set, hk]
      · simp [get?_set, hk]

theorem first_without_separator :
    ∀ (raws : List String), (∃ r, r ∈ raws ∧ hasSeparator r = false) →
      ∃ pre bad post, raws = pre ++ bad :: post ∧
        (∀ r, r ∈ pre → hasSeparator r = true) ∧ hasSeparator bad = false := by
  intro raws
  induction raws with
  | nil => intro ⟨r, hr, _⟩; cases hr
  | cons r0 rest ih =>
    intro ⟨r, hr, hbad⟩
    cases h0 : hasSeparator r0 with
    | false => exact ⟨[], r0, rest, rfl, (fun _ hmem => by cases hmem), h0⟩
    | true =>
      rcases List.mem_cons.mp hr with heq | hin
      · rw [heq, h0] at hbad; cases hbad
      · obtain ⟨pre, bad, post, h1, h2, h3⟩ := ih ⟨r, hin, hbad⟩
        refine ⟨r0 :: pre, bad, post, by rw [h1]; rfl, ?_, h3⟩
        intro r' hr'
        rcases List.mem_cons.mp hr' with heq | hin'
        · rw [heq]; exact h0
        · exact h2 r' hin'

/-- C10: annotation processing fails exactly when some entry has no colon, the
error then names the first such entry, and otherwise it succeeds with the map
that gives each key (the text before the first colon of an entry) the value
(the text after that colon, less the white space that directly follows it) of
the last entry with that key, and nothing for any other key. -/
theorem C10_annotation_processing (raws : List String) :
    ((∃ e, annotationProcessing raws = .error e) ↔ ∃ r, r ∈ raws ∧ hasSeparator r = false) ∧
    (∀ pre bad post, raws = pre ++ bad :: post →
      (∀ r, r ∈ pre → hasSeparator r = true) → hasSeparator bad = false →
      annotationProcessing raws = .error ("invalid annotation: " ++ bad)) ∧
    ((∀ r, r ∈ raws → hasSeparator r = true) →
      ∃ m, annotationProcessing raws = .ok m ∧
        ∀ k, m.get? k = (raws.reverse.find? (fun r => keyOf r == k)).map valueOf) := by
  have herr : ∀ pre bad post, raws = pre ++ bad :: post →
      (∀ r, r ∈ pre → hasSeparator r = true) → hasSeparator bad = false →
      annotationProcessing raws = .error ("invalid annotation: " ++ bad) := by
    intro pre bad post heq hpre hbad
    rw [heq]
    exact processAnnotations_error pre bad post [] hpre hbad
  refine ⟨⟨?_, ?_⟩, herr, ?_⟩
  · intro ⟨e, he⟩
    by_contra hcon
    have hall : ∀ r, r ∈ raws → hasSeparator r = true := by
      intro r hr
      cases hs : hasSeparator r with
      | true => rfl
      | false => exact absurd ⟨r, hr, hs⟩ hcon
    have hok := processAnnotations_ok raws [] hall
    rw [annotationProcessing, hok] at he
    cases he
  · intro hex
    obtain ⟨pre, bad, post, h1, h2, h3⟩ := first_without_separator raws hex
    exact ⟨_, herr pre bad post h1 h2 h3⟩
  · intro hall
    refine ⟨_, processAnnotations_ok raws [] hall, ?_⟩
    intro k
    rw [foldl_get?]
    cases raws.reverse.find? (fun r => keyOf r == k) <;> rfl

/-- C10, at four well-formed annotations, and at a list whose second entry has
no colon. -/
theorem C10_annotation_processing_witness :
    (∃ m, annotationProcessing exampleAnnotations = .ok m ∧
      ∀ k, m.get? k
        = (exampleAnnotations.reverse.find? (fun r => keyOf r == k)).map valueOf) ∧
    annotationProcessing ["a:b", "no separator", "c"] = .error "invalid annotation: no separator" ∧
    annotationProcessing exampleAnnotations = .ok
      [ ("io.azurecr.eol.v1.subject.eol.date", "2026-06-30"),
        ("io.azurecr.eol.v1.subject.eol.reason", "end-of-maintenance"),
        ("io.azurecr.eol.v1.subject.eol.support.url", "https://docs.microsoft.com/en-us/azure") ] :=
  ⟨(C10_annotation_processing exampleAnnotations).2.2 (by decide),
    (C10_annotation_processing ["a:b", "no separator", "c"]).2.1 ["a:b"] "no separator" ["c"]
      rfl (by decide) (by decide),
    rfl⟩

/-! ## When the correlator panics -/

theorem after_eq_length_iff (cmds : List Command) :
    instructionsAfterLastFROM cmds = cmds.length ↔ ∀ c, c ∈ cmds → isFROM c = false := by
  have ht := after_le cmds
  constructor
  · intro hall c hc
    obtain ⟨i, hi⟩ := List.getElem?_of_mem hc
    have hlt := getElem?_lt _ _ _ hi
    obtain ⟨c', hc', hF⟩ := after_notFROM cmds (cmds.length - 1 - i) (by omega)
    have hidx : cmds.length - 1 - (cmds.length - 1 - i) = i := by omega
    rw [hidx, hi] at hc'
    cases hc'
    exact hF
  · intro hno
    by_contra hne
    obtain ⟨c, hc, hF⟩ := after_FROM cmds (by omega)
    rw [hno c (List.getElem?_mem hc)] at hF
    cases hF

theorem loop1_exhausted (cmds : List Command) (h : Heap) (ls : List Descriptor)
    (hno : instructionsAfterLastFROM cmds = cmds.length) (hlt : cmds.length < ls.length) :
    ∃ m h1 ls1, loop1 cmds cmds.length ls.length h ls = some (0, m + 1, h1, ls1) := by
  obtain ⟨s, ext, ls', heq, hsd, hsm, _, _, hext, _, hexit⟩ :=
    loop1_spec cmds cmds.length ls.length h ls (Nat.le_refl _) (Nat.le_refl _)
  have hs := walk_length cmds ls.length s hsd hsm
    (fun j hj => (hext j hj).imp (fun _ hc => ⟨hc.1, hc.2.1⟩)) hexit
  have hsI : s = cmds.length := by omega
  have hd : cmds.length - s = 0 := by omega
  obtain ⟨m, hm⟩ : ∃ m, ls.length - s = m + 1 := ⟨ls.length - s - 1, by omega⟩
  rw [hd, hm] at heq
  exact ⟨m, _, _, heq⟩

/-- C11: the correlator panics exactly when no instruction is a FROM and the
layers outnumber the instructions. In that case the first loop ends with the
instruction cursor at -1 and a layer still to classify, and the second loop
panics on `dockerfileCommands[-1]`. On every other input, fewer instructions
than layers with a FROM among them included, every index is in range and the
manifest is returned. -/
theorem C11_panic_exactly_without_FROM (cmds : List Command) (h : Heap) (M : Manifest) :
    (modifyManifestWithDockerfileOrigin cmds h M = none ↔
      ((∀ c, c ∈ cmds → isFROM c = false) ∧ cmds.length < M.Layers.length)) ∧
    (modifyManifestWithDockerfileOrigin cmds h M = none →
      ∃ m h1 ls1,
        loop1 cmds cmds.length M.Layers.length
          (h ++ [annotationsForNonUpstreamOwnership] ++ [annotationsForNonUpstreamOwnership])
          M.Layers = some (0, m + 1, h1, ls1) ∧
        commandAt cmds 0 = none ∧ loop2 cmds 0 (m + 1) h1 ls1 = none) ∧
    (¬ ((∀ c, c ∈ cmds → isFROM c = false) ∧ cmds.length < M.Layers.length) →
      ∃ h' M', modifyManifestWithDockerfileOrigin cmds h M = some (h', M') ∧
        M'.Layers.length = M.Layers.length) := by
  have ht := after_le cmds
  have hiff : modifyManifestWithDockerfileOrigin cmds h M = none ↔
      ((∀ c, c ∈ cmds → isFROM c = false) ∧ cmds.length < M.Layers.length) := by
    rw [← after_eq_length_iff]
    constructor
    · intro hnone
      by_contra hcon
      rw [correlator_returns cmds h M (by omega)] at hnone
      cases hnone
    · intro ⟨hno, hlt⟩
      exact correlator_panics cmds h M hno hlt
  refine ⟨hiff, ?_, ?_⟩
  · intro hnone
    obtain ⟨hno, hlt⟩ := hiff.mp hnone
    obtain ⟨m, h1, ls1, hl1⟩ := loop1_exhausted cmds
      (h ++ [annotationsForNonUpstreamOwnership] ++ [annotationsForNonUpstreamOwnership])
      M.Layers ((after_eq_length_iff cmds).mpr hno) hlt
    exact ⟨m, h1, ls1, hl1, rfl, loop2_panic cmds 0 rfl m h1 ls1⟩
  · intro hcon
    have hcond : instructionsAfterLastFROM cmds < cmds.length ∨ M.Layers.length ≤ cmds.length := by
      by_contra hc
      apply hcon
      exact ⟨(after_eq_length_iff cmds).mp (by omega), by omega⟩
    have hret := correlator_returns cmds h M hcond
    exact ⟨_, _, hret, returned_length cmds h _ M _ hret⟩

/-- C11, at one instruction that is no FROM with two layers (a panic), and at
the single instruction FROM with three layers (a return). -/
theorem C11_panic_exactly_without_FROM_witness :
    modifyManifestWithDockerfileOrigin [{ Cmd := "run", Original := "RUN a" }] [] twoLayers
      = none ∧
    (∃ m h1 ls1,
      loop1 [{ Cmd := "run", Original := "RUN a" }] 1 twoLayers.Layers.length
        ([] ++ [annotationsForNonUpstreamOwnership] ++ [annotationsForNonUpstreamOwnership])
        twoLayers.Layers = some (0, m + 1, h1, ls1) ∧
      commandAt [{ Cmd := "run", Original := "RUN a" }] 0 = none ∧
      loop2 [{ Cmd := "run", Original := "RUN a" }] 0 (m + 1) h1 ls1 = none) ∧
    (∃ h' M',
      modifyManifestWithDockerfileOrigin [{ Cmd := "from", Original := "FROM base" }] []
        threeLayers = some (h', M') ∧
      M'.Layers.length = threeLayers.Layers.length) :=
  ⟨(C11_panic_exactly_without_FROM [{ Cmd := "run", Original := "RUN a" }] [] twoLayers).1.mpr
      ⟨by decide, by decide⟩,
    (C11_panic_exactly_without_FROM [{ Cmd := "run", Original := "RUN a" }] [] twoLayers).2.1
      (by decide),
    (C11_panic_exactly_without_FROM [{ Cmd := "from", Original := "FROM base" }] []
      threeLayers).2.2 (by decide)⟩

end Lpm
